import Mathlib

/-!
Shallow embedding of the `redstone_compiler` code-generation backend
(`src/backend/{compiler,instruction,types,error}.rs` and
`src/backend/module/{io,list,ram,screen}.rs`), together with theorems about
the claims of the specification.

Conventions of the embedding:
* Rust `i16` values are represented as `Int`; every arithmetic operation of
  the source is wrapped with two's-complement 16-bit semantics (`wrap16`),
  the behavior of Rust release builds.
* Rust `u8` values are represented as `Nat`; where the source wraps or
  truncates, an explicit `% 256` appears.
* `HashMap` fields are represented as association lists whose `insert`
  replaces an existing key in place, so key iteration order and key count
  agree with the source's observable behavior.
* Fallible functions return `Except Error`; the recursive statement/expression
  evaluator carries a fuel parameter only to make the (structurally
  terminating) mutual recursion of the source manifestly total; any fuel
  larger than the nesting depth of the input gives the source behavior.
-/

set_option linter.unusedVariables false

/-- Wrap an unbounded integer into the i16 range `[-32768, 32767]`: the
two's-complement (release-mode) semantics of Rust i16 arithmetic. -/
def wrap16 (z : Int) : Int := (z + 32768) % 65536 - 32768

/-- View of an i16 value as its unsigned 16-bit two's-complement bit pattern. -/
def toU16 (z : Int) : Nat := ((z : Int) % 65536).toNat

/-- Low byte of `i16::to_le_bytes`. -/
def lowByte (z : Int) : Nat := toU16 z % 256

/-- High byte of `i16::to_le_bytes`. -/
def highByte (z : Int) : Nat := toU16 z / 256

/-- Rust `i16` wrapping addition. -/
def add16 (a b : Int) : Int := wrap16 (a + b)

/-- Rust `i16` wrapping subtraction. -/
def sub16 (a b : Int) : Int := wrap16 (a - b)

/-- Rust `i16` wrapping multiplication. -/
def mul16 (a b : Int) : Int := wrap16 (a * b)

/-- Rust `i16` bitwise and. -/
def and16 (a b : Int) : Int := wrap16 (Int.ofNat (Nat.land (toU16 a) (toU16 b)))

/-- Rust `i16` bitwise or. -/
def or16 (a b : Int) : Int := wrap16 (Int.ofNat (Nat.lor (toU16 a) (toU16 b)))

/-- Rust `i16` bitwise xor. -/
def xor16 (a b : Int) : Int := wrap16 (Int.ofNat (Nat.xor (toU16 a) (toU16 b)))

/-- Rust `i16 << i16` with the release-mode masking of the shift amount. -/
def shl16 (a b : Int) : Int := wrap16 (a * 2 ^ (toU16 b % 16))

/-- Rust `i16 >> i16` (arithmetic shift) with release-mode masked amount. -/
def shr16 (a b : Int) : Int := a / (2 ^ (toU16 b % 16) : Int)

/-- Source location, from `frontend/location.rs` (`Location(line, column)`). -/
structure Location where
  line : Nat
  col : Nat
deriving DecidableEq, Repr, Inhabited

/-- Source range, from `frontend/location.rs` (`Range(start, end)`). -/
structure Range where
  start : Location
  stop : Location
deriving DecidableEq, Repr, Inhabited

/-- Binary operators of the source language, `frontend/ast.rs`. -/
inductive Operator where
  | Plus | Minus | Mult | And | Or | Xor
deriving DecidableEq, Repr

/-- Commutativity test of `Operator`, from `frontend/ast.rs`
(`!matches!(self, Self::Minus)`). -/
def Operator.is_commutative : Operator → Bool
  | .Minus => false
  | _ => true

/-- Equality-comparison operators of the source language, `frontend/ast.rs`. -/
inductive EqualityOperator where
  | EqualTo | NotEqual | Greater | GreaterEq | Less | LessEq
deriving DecidableEq, Repr

/-- Negation of an equality operator, from `frontend/ast.rs`. -/
def EqualityOperator.opposite : EqualityOperator → EqualityOperator
  | .EqualTo => .NotEqual
  | .NotEqual => .EqualTo
  | .Greater => .LessEq
  | .GreaterEq => .Less
  | .Less => .GreaterEq
  | .LessEq => .Greater

/-- Operand-swap dual of an equality operator, from `frontend/ast.rs`. -/
def EqualityOperator.turnaround : EqualityOperator → EqualityOperator
  | .EqualTo => .EqualTo
  | .NotEqual => .NotEqual
  | .Greater => .Less
  | .GreaterEq => .LessEq
  | .Less => .Greater
  | .LessEq => .GreaterEq

/-- Expressions of the source language, from `frontend/ast.rs`; each node
carries its source `Range` (the `Expression { typ, location }` pair of the
source is flattened into one inductive, and the `symbol` fields follow the
backend's revision of the AST where they are plain strings). -/
inductive Expression where
  | inlineDeclaration (symbol : String) (value : Expression) (location : Range)
  | use (module : String) (location : Range)
  | conditional (condition : Expression) (body : List Expression)
      (paths : List (Expression × List Expression))
      (alternate : Option (List Expression)) (location : Range)
  | endlessLoop (body : List Expression) (location : Range)
  | whileLoop (condition : Expression) (body : List Expression) (location : Range)
  | pass (location : Range)
  | binaryExpr (left right : Expression) (operator : Operator) (location : Range)
  | eqExpr (left right : Expression) (operator : EqualityOperator) (location : Range)
  | identifier (name : String) (location : Range)
  | numericLiteral (value : Int) (location : Range)
  | assignment (symbol : String) (value : Expression) (location : Range)
  | iassignment (symbol : String) (value : Expression) (operator : Operator)
      (location : Range)
  | varDeclaration (symbol : String) (location : Range)
  | member (object : Expression) (property : String) (location : Range)
  | call (args : List Expression) (function : Expression) (location : Range)
  | debug (location : Range)

/-- Source range of an expression (`Expression::location`). -/
def Expression.location : Expression → Range
  | .inlineDeclaration _ _ l => l
  | .use _ l => l
  | .conditional _ _ _ _ l => l
  | .endlessLoop _ l => l
  | .whileLoop _ _ l => l
  | .pass l => l
  | .binaryExpr _ _ _ l => l
  | .eqExpr _ _ _ l => l
  | .identifier _ l => l
  | .numericLiteral _ l => l
  | .assignment _ _ l => l
  | .iassignment _ _ _ l => l
  | .varDeclaration _ l => l
  | .member _ _ l => l
  | .call _ _ l => l
  | .debug l => l

/-- Machine opcodes, from the `table_enum!` of `backend/instruction.rs`. -/
inductive InstructionVariant where
  | STOP | NON | LA | LB | LC | SVA | LAL | LAH | LBL | LBH | LCL
  | ADD | SUB | AND | OR | XOR | SUP | SDN | MUL
  | RW | RR | RC | INB
  | JMP | JE | JNE | JG | JGE | JL | JLE
  | JMD | JDE | JDN | JDG | JDGE | JDL | JDLE
  | SMP | SE | SNE | SG | SGE | SL | SLE
  | SMD | SDE | SDNE | SDG | SDGE | SDL | SDLE
deriving DecidableEq, Repr

/-- Metadata column `disc_jump` of the opcode table. -/
def InstructionVariant.disc_jump : InstructionVariant → Bool
  | .JMD | .JDE | .JDN | .JDG | .JDGE | .JDL | .JDLE => true
  | .SMD | .SDE | .SDNE | .SDG | .SDGE | .SDL | .SDLE => true
  | _ => false

/-- Metadata column `jump` of the opcode table. -/
def InstructionVariant.jump : InstructionVariant → Bool
  | .JMP | .JE | .JNE | .JG | .JGE | .JL | .JLE => true
  | .JMD | .JDE | .JDN | .JDG | .JDGE | .JDL | .JDLE => true
  | .SMP | .SE | .SNE | .SG | .SGE | .SL | .SLE => true
  | .SMD | .SDE | .SDNE | .SDG | .SDGE | .SDL | .SDLE => true
  | _ => false

/-- Metadata column `id` of the opcode table. -/
def InstructionVariant.id : InstructionVariant → Nat
  | .STOP | .NON => 0
  | .LA => 1
  | .LB => 2
  | .LC => 3
  | .SVA => 4
  | .LAL => 5
  | .LAH => 6
  | .LBL => 7
  | .LBH => 8
  | .LCL => 9
  | .ADD => 1
  | .SUB => 2
  | .AND => 3
  | .OR => 4
  | .XOR => 5
  | .SUP => 6
  | .SDN => 7
  | .MUL => 8
  | .RW | .RR | .RC | .INB => 255
  | .JMP | .JMD | .SMP | .SMD => 0
  | .JE | .JDE | .SE | .SDE => 1
  | .JNE | .JDN | .SNE | .SDNE => 2
  | .JG | .JDG | .SG | .SDG => 3
  | .JGE | .JDGE | .SGE | .SDGE => 4
  | .JL | .JDL | .SL | .SDL => 5
  | .JLE | .JDLE | .SLE | .SDLE => 6

/-- Metadata column `instant` of the opcode table. -/
def InstructionVariant.instant : InstructionVariant → Bool
  | .STOP | .SUP | .SDN | .MUL | .RC | .INB => false
  | _ => true

/-- Metadata column `alu` of the opcode table. -/
def InstructionVariant.alu : InstructionVariant → Bool
  | .ADD | .SUB | .AND | .OR | .XOR | .SUP | .SDN | .MUL => true
  | v => v.jump

/-- Metadata column `has_arg` of the opcode table. -/
def InstructionVariant.has_arg : InstructionVariant → Bool
  | .STOP | .NON => false
  | .ADD | .SUB | .AND | .OR | .XOR | .MUL => false
  | .RW | .RR | .RC | .INB => false
  | _ => true

/-- Conversion of a near jump to its far (disc) twin,
`InstructionVariant::to_disc_jump`. The source asserts that the receiver is
a near jump and then matches on `id` only; the fall-through arm models the
unreachable `panic!()` by returning the variant unchanged. -/
def InstructionVariant.to_disc_jump (v : InstructionVariant) : InstructionVariant :=
  match v.id with
  | 0 => .JMD
  | 1 => .JDE
  | 2 => .JDN
  | 3 => .JDG
  | 4 => .JDGE
  | 5 => .JDL
  | 6 => .JDLE
  | _ => v

/-- Alias `InstructionVariant::is_jump`. -/
def InstructionVariant.is_jump (v : InstructionVariant) : Bool := v.jump

/-- Near-jump opcode for an equality operator, `InstructionVariant::from_op`. -/
def InstructionVariant.from_op : EqualityOperator → InstructionVariant
  | .EqualTo => .JE
  | .NotEqual => .JNE
  | .Greater => .JG
  | .GreaterEq => .JGE
  | .Less => .JL
  | .LessEq => .JLE

/-- Opcode byte, `InstructionVariant::to_byte`: Rust u8 expression
`(jump as u8) << 6 | (disc_jump as u8) << 5 | id << 1 | instant as u8`.
The u8 shift `id << 1` discards the high bit, hence the `% 256`. -/
def InstructionVariant.to_byte (v : InstructionVariant) : Nat :=
  (if v.jump then 1 else 0) <<< 6 ||| (if v.disc_jump then 1 else 0) <<< 5 |||
    (v.id <<< 1) % 256 ||| (if v.instant then 1 else 0)

/-- Machine instruction: an opcode with an optional 8-bit argument. -/
structure Instruction where
  variant : InstructionVariant
  arg : Option Nat
deriving DecidableEq, Repr

/-- Checked constructor `Instruction::new`. The source asserts
`variant.has_arg() == arg.is_some()` and panics otherwise; the panic is
modelled by `none`. -/
def Instruction.new (variant : InstructionVariant) (arg : Option Nat) :
    Option Instruction :=
  if variant.has_arg = arg.isSome then some ⟨variant, arg⟩ else none

/-- Binary encoding `Instruction::to_bin`:
`u16::from(self.arg.unwrap_or(0)) | u16::from(self.variant.to_byte()) << 8`. -/
def Instruction.to_bin (i : Instruction) : Nat :=
  i.arg.getD 0 ||| i.variant.to_byte <<< 8

/-- Known content of a machine register, from `backend/types.rs`. -/
inductive RegisterContents where
  | Variable (slot : Nat)
  | Number (value : Int)
  | RamAddress (addr : Int)
  | Unknown
deriving DecidableEq, Repr

instance : Inhabited RegisterContents := ⟨.Unknown⟩

/-- Known RAM page, from `backend/types.rs`. -/
inductive RamPage where
  | ThisOne (page : Nat)
  | Unknown
deriving DecidableEq, Repr

/-- Default RAM page: the source's `Default` impl returns `ThisOne(0)`. -/
instance : Inhabited RamPage := ⟨.ThisOne 0⟩

/-- Abstract machine state tracked by the compiler, from `backend/types.rs`. -/
structure ComputerState where
  a : RegisterContents := .Unknown
  b : RegisterContents := .Unknown
  c : RegisterContents := .Unknown
  ram_page : RamPage := .ThisOne 0
deriving DecidableEq, Repr

instance : Inhabited ComputerState := ⟨{}⟩

/-- Symbolic execution of one instruction over the abstract machine state,
`Instruction::execute` in `backend/instruction.rs`. All `i16` arithmetic of
the source is modelled with wrapping semantics; `(address / 16).try_into()`
(a `u8` conversion that fails outside `[0, 256)`) with `.unwrap_or(0)` is
modelled by the explicit range test. -/
def Instruction.execute (i : Instruction) (st : ComputerState) : ComputerState :=
  match i.variant with
  | .LA | .SVA => { st with a := .Variable (i.arg.getD 0) }
  | .LB => { st with b := .Variable (i.arg.getD 0) }
  | .LAL => { st with a := .Number (Int.ofNat (i.arg.getD 0)) }
  | .LAH =>
    { st with
      a := match st.a with
        | .Number value => .Number (add16 value (shl16 (Int.ofNat (i.arg.getD 0)) 8))
        | _ => .Unknown }
  | .LBL => { st with b := .Number (Int.ofNat (i.arg.getD 0)) }
  | .LBH =>
    { st with
      b := match st.b with
        | .Number value => .Number (add16 value (shl16 (Int.ofNat (i.arg.getD 0)) 8))
        | _ => .Unknown }
  | .ADD | .SUB | .MUL | .AND | .OR | .XOR | .SUP | .SDN =>
    { st with
      a := match st.a, st.b with
        | .Number a, .Number b =>
          .Number (match i.variant with
            | .ADD => add16 a b
            | .SUB => sub16 a b
            | .AND => and16 a b
            | .OR => or16 a b
            | .XOR => xor16 a b
            | .SUP => shl16 a b
            | .SDN => shr16 a b
            | _ => mul16 a b)
        | _, _ => .Unknown }
  | .LCL => { st with c := .Number (Int.ofNat (i.arg.getD 0)) }
  | .LC => { st with c := .Variable (i.arg.getD 0) }
  | .RR => { st with a := .Unknown }
  | .INB =>
    { st with
      b := match st.b with
        | .Number value => .Number (add16 value 1)
        | _ => .Unknown }
  | .RC =>
    { st with
      ram_page := match st.b with
        | .Number address =>
          .ThisOne (if 0 ≤ address.tdiv 16 ∧ address.tdiv 16 < 256
            then (address.tdiv 16).toNat else 0)
        | _ => .Unknown }
  | _ => st

mutual
/-- Nested instruction or sub-scope group, `Instr` in `backend/types.rs`.
The source stores `Scope(Vec<Instr>)`; the vector is rendered as the mutual
inductive `InstrList` so that all recursion over the tree is structural. -/
inductive Instr where
  | Code (instr : Instruction)
  | Scope (s : InstrList)

/-- List of `Instr` (the `Vec<Instr>` of the source). -/
inductive InstrList where
  | nil
  | cons (head : Instr) (tail : InstrList)
end

/-- Concatenation of `InstrList`s. -/
def InstrList.append : InstrList → InstrList → InstrList
  | .nil, l => l
  | .cons h t, l => .cons h (t.append l)

/-- Pushing one element at the end of an `InstrList` (`Vec::push`). -/
def InstrList.push (l : InstrList) (i : Instr) : InstrList :=
  l.append (.cons i .nil)

/-- Conversion from an ordinary list. -/
def InstrList.ofList : List Instr → InstrList
  | [] => .nil
  | i :: rest => .cons i (InstrList.ofList rest)

mutual
/-- Contribution of one `Instr` to `Compiler::scope_len`. -/
def Instr.scope_len_one : Instr → Nat
  | .Code _ => 1
  | .Scope s => InstrList.scope_len s

/-- Flattened instruction count of a scope, `Compiler::scope_len`. The
source accumulates in a `u8` (`sum += ...`), so every addition wraps
modulo 256. -/
def InstrList.scope_len : InstrList → Nat
  | .nil => 0
  | .cons i rest => (Instr.scope_len_one i + InstrList.scope_len rest) % 256
end

mutual
/-- Flattening of one `Instr`, `Compiler::flatten_scope`. -/
def Instr.flatten_one : Instr → List Instruction
  | .Code instr => [instr]
  | .Scope s => InstrList.flatten s

/-- Depth-first flattening of a scope into a linear instruction vector,
`Compiler::flatten_scope`. -/
def InstrList.flatten : InstrList → List Instruction
  | .nil => []
  | .cons i rest => Instr.flatten_one i ++ InstrList.flatten rest
end

/-- Lexical scope of the compiler, `Scope` in `backend/types.rs`. The two
`HashMap`s are association lists (see the header note); the field `vars`
renders the source field `variables`, a name Lean reserves. -/
structure Scope where
  state : ComputerState := {}
  vars : List (String × Nat) := []
  inline_variables : List (String × Int) := []
  instructions : InstrList := .nil

instance : Inhabited Scope := ⟨{}⟩

/-- Constructor `Scope::with_state`. -/
def Scope.with_state (state : ComputerState) : Scope := { state := state }

/-- Error kinds, `Type` in `backend/error.rs`. -/
inductive ErrorType where
  | NonexistentVar (name : String)
  | NonexistentInlineVar (name : String)
  | TooManyVars
  | ForbiddenInline
  | UnknownModule (name : String)
  | UnknownMethod (name : String)
  | InvalidArgs (msg : String)
  | CompileTimeArg (name : String)
  | SomethingElseWentWrong (msg : String)
  | ModuleInitTwice (name : String)
  | EqInNormalExpr
  | NormalInEqExpr
  | UseOutsideGlobalScope
deriving DecidableEq, Repr

/-- Source-located compiler error, `Error` in `backend/error.rs`. -/
structure Error where
  typ : ErrorType
  location : Range
deriving DecidableEq, Repr

/-- Session-scoped module state (`module_state: HashMap<&'static str,
Box<dyn Any>>`). Only the two keys used by `module/list.rs` exist in the
source; the map is rendered as one optional field per key, `none` meaning
the key is absent. -/
structure ModuleState where
  list_ptr : Option Nat := none
  list_init : Option Bool := none
deriving DecidableEq, Repr

/-- Compiler session state, `Compiler` in `backend/compiler.rs`. The
`Vec1<Scope>` is split as `(innermost scope, remaining scopes
innermost-first)`, so the source's `scopes.last()` is `scopes.1` and
`scopes.first()` (the root) is the last element of the pair. `main_scope`
is omitted: it is always empty until `get_instructions` pushes the root
scope into it. The field `vars` renders the source field `variables`
(the 32-slot occupancy arena), a name Lean reserves. -/
structure Compiler where
  scopes : Scope × List Scope := (({} : Scope), [])
  main_scope_unused : Unit := ()
  modules : List String := []
  jump_marks : List (Nat × Nat) := []
  vars : List Bool := List.replicate 32 false
  module_state : ModuleState := {}

/-- Fresh compiler, `Compiler::new`. -/
def Compiler.new : Compiler := {}

/-- Innermost scope, `Compiler::last_scope`. -/
def Compiler.last_scope (c : Compiler) : Scope := c.scopes.1

/-- Root scope, `self.scopes.first()`. -/
def Compiler.first_scope (c : Compiler) : Scope :=
  c.scopes.2.getLastD c.scopes.1

/-- Update of the innermost scope (`Compiler::last_scope_mut`). -/
def Compiler.map_last_scope (c : Compiler) (f : Scope → Scope) : Compiler :=
  { c with scopes := (f c.scopes.1, c.scopes.2) }

/-- Root-scope test, `Compiler::is_root_scope` (`scopes.len() == 1`). -/
def Compiler.is_root_scope (c : Compiler) : Bool := c.scopes.2.isEmpty

/-- Insert-or-replace into an association list: the observable behavior of
`HashMap::insert` (key count and per-key value). -/
def alInsert {α β : Type} [BEq α] : List (α × β) → α → β → List (α × β)
  | [], k, v => [(k, v)]
  | (k', v') :: rest, k, v =>
    if k' == k then (k, v) :: rest else (k', v') :: alInsert rest k v

/-- Lookup in an association list (`HashMap::get`). -/
def alGet {α β : Type} [BEq α] : List (α × β) → α → Option β
  | [], _ => none
  | (k', v') :: rest, k => if k' == k then some v' else alGet rest k

/-- Position of the first element satisfying a predicate, the
`Iterator::position` of the source. -/
def list_position {α : Type} (p : α → Bool) : List α → Option Nat
  | [] => none
  | x :: rest => if p x then some 0 else (list_position p rest).map (· + 1)

/-- Innermost-first scan of the scope stack for an inline variable
(the loop body of `Compiler::get_inline_var`). -/
def scanInline (scopes : List Scope) (symbol : String) : Option Int :=
  scopes.findSome? fun sc => alGet sc.inline_variables symbol

/-- Innermost-first scan of the scope stack for a named variable
(the loop body of `Compiler::insert_var` / `get_var_noerror`). -/
def scanVars (scopes : List Scope) (symbol : String) : Option Nat :=
  scopes.findSome? fun sc => alGet sc.vars symbol

/-- Declaration of an inline variable, `Compiler::insert_inline_var`. -/
def Compiler.insert_inline_var (c : Compiler) (symbol : String) (value : Int) :
    Compiler :=
  c.map_last_scope fun s =>
    { s with inline_variables := alInsert s.inline_variables symbol value }

/-- Lookup of an inline variable, `Compiler::get_inline_var`: the scopes are
searched innermost-first (`self.scopes.iter().rev()`). -/
def Compiler.get_inline_var (c : Compiler) (symbol : String) (location : Range) :
    Except Error Int :=
  match scanInline (c.scopes.1 :: c.scopes.2) symbol with
  | some v => .ok v
  | none => .error ⟨.NonexistentInlineVar symbol, location⟩

/-- Claim of the lowest free arena slot, `Compiler::get_next_available_slot`
(`position` of the first `false`, then set it `true`). -/
def Compiler.get_next_available_slot (c : Compiler) : Option (Nat × Compiler) :=
  match list_position (fun slot => !slot) c.vars with
  | none => none
  | some index => some (index, { c with vars := c.vars.set index true })

/-- Declaration of a named variable, `Compiler::insert_var`: innermost-first
lookup; on a miss, claim the lowest free slot and bind it in the innermost
scope; `TooManyVars` when the arena is full. -/
def Compiler.insert_var (c : Compiler) (symbol : String) (location : Range) :
    Except Error (Nat × Compiler) :=
  match scanVars (c.scopes.1 :: c.scopes.2) symbol with
  | some v => .ok (v, c)
  | none =>
    match c.get_next_available_slot with
    | none => .error ⟨.TooManyVars, location⟩
    | some (slot, c') =>
      .ok (slot, c'.map_last_scope fun s => { s with vars := alInsert s.vars symbol slot })

/-- Lookup of a named variable, `Compiler::get_var_noerror`. -/
def Compiler.get_var_noerror (c : Compiler) (symbol : String) : Option Nat :=
  scanVars (c.scopes.1 :: c.scopes.2) symbol

/-- Lookup of a named variable with error, `Compiler::get_var`. -/
def Compiler.get_var (c : Compiler) (symbol : String) (location : Range) :
    Except Error Nat :=
  match c.get_var_noerror symbol with
  | some v => .ok v
  | none => .error ⟨.NonexistentVar symbol, location⟩

/-- Claim of an anonymous temporary slot, `Compiler::insert_temp_var`. -/
def Compiler.insert_temp_var (c : Compiler) (location : Range) :
    Except Error (Nat × Compiler) :=
  match c.get_next_available_slot with
  | none => .error ⟨.TooManyVars, location⟩
  | some r => .ok r

/-- Release of a temporary slot, `Compiler::cleanup_temp_var`. -/
def Compiler.cleanup_temp_var (c : Compiler) (index : Nat) : Compiler :=
  { c with vars := c.vars.set index false }

/-- Emission of one instruction into the innermost scope,
`Compiler::push_instr`: the instruction is symbolically executed on the
scope's machine state and appended to the scope's instruction list. -/
def Compiler.push_instr (c : Compiler) (instr : Instruction) : Compiler :=
  c.map_last_scope fun s =>
    { s with
      state := instr.execute s.state
      instructions := s.instructions.push (.Code instr) }

/-- Allocation of a fresh jump mark, `Compiler::insert_jump_mark`
(`id = jump_marks.len() as u8`, then `insert(id, 0)`). -/
def Compiler.insert_jump_mark (c : Compiler) : Nat × Compiler :=
  let id := c.jump_marks.length % 256
  (id, { c with jump_marks := alInsert c.jump_marks id 0 })

/-- Binding of a jump mark to a target (`self.jump_marks.insert(id, v)`). -/
def Compiler.set_jump_mark (c : Compiler) (id v : Nat) : Compiler :=
  { c with jump_marks := alInsert c.jump_marks id v }

/-- Entering a scope: the first half of `Compiler::push_scope` (the body is
evaluated by the fueled evaluator below). -/
def Compiler.enter_scope (c : Compiler) (state : ComputerState) : Compiler :=
  { c with scopes := (Scope.with_state state, c.scopes.1 :: c.scopes.2) }

/-- Freeing of every arena slot owned by a popped scope (the loop of
`Compiler::pop_scope`). -/
def free_slots (arena : List Bool) : List (String × Nat) → List Bool
  | [] => arena
  | (_, slot) :: rest => free_slots (arena.set slot false) rest

/-- Leaving a scope, `Compiler::pop_scope`: the popped scope's instruction
list is appended to the parent as a group and its variable slots are freed.
Popping the root scope is unreachable in the source (`Vec1::pop` fails and
`unwrap` panics); it is modelled as the identity. -/
def Compiler.pop_scope (c : Compiler) : Compiler :=
  match h : c.scopes.2 with
  | [] => c
  | parent :: rest =>
    let popped := c.scopes.1
    let parent' :=
      { parent with instructions := parent.instructions.push (.Scope popped.instructions) }
    { c with
      scopes := (parent', rest)
      vars := free_slots c.vars popped.vars }

/-- Classification `Compiler::can_put_into_a`. -/
def Compiler.can_put_into_a : Expression → Bool
  | .numericLiteral _ _ | .identifier _ _ => true
  | .assignment _ value _ => Compiler.can_put_into_a value
  | _ => false

/-- Classification `Compiler::can_put_into_b`. -/
def Compiler.can_put_into_b : Expression → Bool
  | .numericLiteral _ _ | .identifier _ _ => true
  | _ => false

/-- Test whether an operand is already in register A, `Compiler::is_in_a`. -/
def Compiler.is_in_a (c : Compiler) (e : Expression) : Bool :=
  match e with
  | .numericLiteral value _ => c.last_scope.state.a == .Number value
  | .identifier symbol _ =>
    match c.get_var_noerror symbol with
    | some v => RegisterContents.Variable v == c.last_scope.state.a
    | none => false
  | _ => false

/-- Test whether an operand is already in register B, `Compiler::is_in_b`. -/
def Compiler.is_in_b (c : Compiler) (e : Expression) : Bool :=
  match e with
  | .numericLiteral value _ => c.last_scope.state.b == .Number value
  | .identifier symbol _ =>
    match c.get_var_noerror symbol with
    | some v => RegisterContents.Variable v == c.last_scope.state.b
    | none => false
  | _ => false

/-- Loading of a numeric literal into register A, `Compiler::put_a_number`:
skip when A already holds the value symbolically, else `LAL low` and, only
when the high byte is non-zero, `LAH high`. -/
def Compiler.put_a_number (c : Compiler) (value : Int) : Compiler :=
  if c.last_scope.state.a == .Number value then c
  else
    let c' := c.push_instr ⟨.LAL, some (lowByte value)⟩
    if highByte value ≠ 0 then c'.push_instr ⟨.LAH, some (highByte value)⟩ else c'

/-- Loading of a numeric literal into register B, `Compiler::put_b_number`. -/
def Compiler.put_b_number (c : Compiler) (value : Int) : Compiler :=
  if c.last_scope.state.b == .Number value then c
  else
    let c' := c.push_instr ⟨.LBL, some (lowByte value)⟩
    if highByte value ≠ 0 then c'.push_instr ⟨.LBH, some (highByte value)⟩ else c'

/-- Transfer of A into B through a fresh temporary, `Compiler::switch`. -/
def Compiler.switch (c : Compiler) (location : Range) : Except Error Compiler := do
  let (temp, c₁) ← c.insert_temp_var location
  let c₂ := c₁.push_instr ⟨.SVA, some temp⟩
  let c₃ := c₂.push_instr ⟨.LB, some temp⟩
  .ok (c₃.cleanup_temp_var temp)

/-- Compile-time evaluator, `Compiler::eval_after_inline`: numeric literals,
inline identifiers and the six binary operators only, with wrapping i16
arithmetic; everything else is `ForbiddenInline`. -/
def Compiler.eval_after_inline (c : Compiler) : Expression → Except Error Int
  | .identifier name loc => c.get_inline_var name loc
  | .binaryExpr left right operator _ => do
    let l ← c.eval_after_inline left
    let r ← c.eval_after_inline right
    .ok (match operator with
      | .Plus => add16 l r
      | .Minus => sub16 l r
      | .Mult => mul16 l r
      | .And => and16 l r
      | .Or => or16 l r
      | .Xor => xor16 l r)
  | .numericLiteral value _ => .ok value
  | e => .error ⟨.ForbiddenInline, e.location⟩

/-- Constant recovery, `Compiler::try_get_constant`: tolerates exactly
`NonexistentInlineVar` and `ForbiddenInline` (returning `none`), propagates
every other error. -/
def Compiler.try_get_constant (c : Compiler) (value : Expression) :
    Except Error (Option Int) :=
  match value with
  | .numericLiteral v _ => .ok (some v)
  | .identifier symbol loc => .ok (c.get_inline_var symbol loc).toOption
  | .binaryExpr .. =>
    match c.eval_after_inline value with
    | .ok v => .ok (some v)
    | .error err =>
      match err.typ with
      | .NonexistentInlineVar _ | .ForbiddenInline => .ok none
      | _ => .error err
  | _ => .ok none

/-- Option-valued constant recovery: the `module/{io,ram,screen}.rs` files
were written against an older `try_get_constant` that returned
`Option<i16>`; errors of the current one count as "not a constant". -/
def Compiler.try_get_constant_opt (c : Compiler) (value : Expression) : Option Int :=
  match c.try_get_constant value with
  | .ok v => v
  | .error _ => none

/-- Canonicalization of a loop/conditional condition, free function
`eval_condition` in `backend/compiler.rs`. -/
def eval_condition (condition : Expression) :
    Except Error (Expression × Expression × EqualityOperator) :=
  match condition with
  | .eqExpr left right operator _ => .ok (left, right, operator)
  | e => .error ⟨.NormalInEqExpr, e.location⟩

/-- Count of near (non-disc) jump instructions in a flat program; this is
the quantity that strictly decreases across changing passes of
`insert_disc_jumps`. -/
def near_count (v : List Instruction) : Nat :=
  v.countP fun i => i.variant.is_jump && !i.variant.disc_jump

/-- Shift of all mark targets at or after an insertion point,
`Compiler::move_jump_marks`. Targets are `u8`, so the increment wraps. -/
def move_jump_marks (jump_marks : List (Nat × Nat)) (lo step : Nat) :
    List (Nat × Nat) :=
  jump_marks.map fun kv => if kv.2 ≥ lo then (kv.1, (kv.2 + step) % 256) else kv

/-- One scanning sweep of the `while i < instructions.len()` loop of
`Compiler::insert_disc_jumps`. When a near jump's target page differs from
its own page, the jump is replaced in place by its far twin with an
`LCL jump_page` inserted right before it (the `Vec::set` + `Vec::insert`
pair is expressed by take/drop surgery), all mark targets at or after the
insertion index are shifted by one, and scanning resumes two slots further.
The fuel only bounds the number of scan steps: `fuel ≥ v.length - i` gives
the source behavior. -/
def idj_go (fuel : Nat) (v : List Instruction) (jump_marks : List (Nat × Nat))
    (i : Nat) (changes : Bool) : List Instruction × List (Nat × Nat) × Bool :=
  match fuel with
  | 0 => (v, jump_marks, changes)
  | fuel + 1 =>
    match v[i]? with
    | none => (v, jump_marks, changes)
    | some instr =>
      if instr.variant.is_jump && !instr.variant.disc_jump then
        let mark := instr.arg.getD 0
        let current_page := i / 64
        let jump_page := (alGet jump_marks mark).getD 0 / 64
        if current_page ≠ jump_page then
          let v' := v.take i ++
            [⟨.LCL, some jump_page⟩, ⟨instr.variant.to_disc_jump, instr.arg⟩] ++
            v.drop (i + 1)
          idj_go fuel v' (move_jump_marks jump_marks (i % 256) 1) (i + 2) true
        else idj_go fuel v jump_marks (i + 1) changes
      else idj_go fuel v jump_marks (i + 1) changes

/-- One full pass of `insert_disc_jumps` over the current program. -/
def idj_pass (v : List Instruction) (jump_marks : List (Nat × Nat)) :
    List Instruction × List (Nat × Nat) × Bool :=
  idj_go (v.length + 1) v jump_marks 0 false

/-- Fix-point loop of `Compiler::insert_disc_jumps` (`loop { ...; if
!changes { break } }`); the fuel bounds the number of passes, and
`near_count v + 1` passes always suffice (each changing pass converts at
least one near jump to a far jump). -/
def idj_loop : Nat → List Instruction → List (Nat × Nat) →
    List Instruction × List (Nat × Nat)
  | 0, v, m => (v, m)
  | fuel + 1, v, m =>
    let r := idj_pass v m
    if r.2.2 then idj_loop fuel r.1 r.2.1 else (r.1, r.2.1)

/-- Page-selector insertion pass, `Compiler::insert_disc_jumps`. -/
def insert_disc_jumps (v : List Instruction) (jump_marks : List (Nat × Nat)) :
    List Instruction × List (Nat × Nat) :=
  idj_loop (near_count v + 1) v jump_marks

/-- Mark resolution, `Compiler::replace_jump_marks`: every jump's `arg`
(a mark id) is replaced by the mark's target. The source `expect`s that the
arg and the mark binding exist; both are modelled by `getD 0`. -/
def replace_jump_marks (instructions : List Instruction)
    (jump_marks : List (Nat × Nat)) : List Instruction :=
  instructions.map fun i =>
    if i.variant.is_jump then
      { i with arg := some ((alGet jump_marks (i.arg.getD 0)).getD 0) }
    else i

/-- Linking of a flattened program: page-selector insertion to a fix-point
followed by mark resolution (the tail of `Compiler::get_instructions`). -/
def link_program (v : List Instruction) (jump_marks : List (Nat × Nat)) :
    List Instruction :=
  replace_jump_marks (insert_disc_jumps v jump_marks).1
    (insert_disc_jumps v jump_marks).2

/-- Final assembly of the program, `Compiler::get_instructions`: the root
scope is flattened depth-first, page selectors are inserted to a fix-point,
and jump marks are resolved. -/
def Compiler.get_instructions (c : Compiler) : List Instruction :=
  link_program c.first_scope.instructions.flatten c.jump_marks

/-- Shorthand tests used by the arbitration of `put_ab`
(`matches!(typ, Identifier(..))`, `matches!(typ, NumericLiteral(..))`). -/
def Expression.is_identifier : Expression → Bool
  | .identifier _ _ => true
  | _ => false

/-- Test for a numeric-literal expression. -/
def Expression.is_numeric_literal : Expression → Bool
  | .numericLiteral _ _ => true
  | _ => false

/-- Emission of the ALU opcode of a binary operator, `Compiler::put_op`. -/
def Compiler.put_op (c : Compiler) (operator : Operator) : Compiler :=
  match operator with
  | .Plus => c.push_instr ⟨.ADD, none⟩
  | .Minus => c.push_instr ⟨.SUB, none⟩
  | .Mult => c.push_instr ⟨.MUL, none⟩
  | .And => c.push_instr ⟨.AND, none⟩
  | .Or => c.push_instr ⟨.OR, none⟩
  | .Xor => c.push_instr ⟨.XOR, none⟩

/-- Loading of a simple operand into register B, `Compiler::put_into_b`:
inline variables win over runtime variables, and a load is skipped when B
already holds the requested slot. -/
def Compiler.put_into_b (c : Compiler) (expr : Expression) :
    Except Error Compiler :=
  match expr with
  | .numericLiteral value _ => .ok (c.put_b_number value)
  | .identifier symbol loc =>
    match c.get_inline_var symbol loc with
    | .ok value => .ok (c.put_b_number value)
    | .error _ => do
      let var ← c.get_var symbol loc
      if c.last_scope.state.b == .Variable var then .ok c
      else .ok (c.push_instr ⟨.LB, some var⟩)
  | e => .error ⟨.SomethingElseWentWrong "put_b called on wrong expression", e.location⟩

/-- Module call payload, the `Call` struct built by `Compiler::eval_call`
(method name, argument expressions, source range of the callee). -/
structure Call where
  method_name : String
  args : List Expression
  location : Range

/-- Module call payload of the older module API (`ModuleCall` used by
`module/io.rs`); it carries no source range. -/
structure ModuleCall where
  method_name : String
  args : List Expression

/-- Error type of the older module API (`CompilerError`), used by
`module/io.rs`. Modelled from the spec: its definition is absent from
`src`; the kinds follow section 7 of the spec, without a source location,
matching how `io.rs` constructs and returns them. -/
inductive CompilerError where
  | NonexistentVar (name : String)
  | NonexistentInlineVar (name : String)
  | TooManyVars
  | ForbiddenInline
  | UnknownModule (name : String)
  | UnknownMethod (name : String)
  | InvalidArgs (msg : String)
  | CompileTimeArg (name : String)
  | SomethingElseWentWrong (msg : String)
  | ModuleInitTwice (name : String)
  | EqInNormalExpr
  | NormalInEqExpr
  | UseOutsideGlobalScope
deriving DecidableEq, Repr

/-- Constructor-wise projection of a located error kind onto the older
unlocated error type (glue between the current core and `module/io.rs`,
absent from `src`). -/
def ErrorType.toCompilerError : ErrorType → CompilerError
  | .NonexistentVar n => .NonexistentVar n
  | .NonexistentInlineVar n => .NonexistentInlineVar n
  | .TooManyVars => .TooManyVars
  | .ForbiddenInline => .ForbiddenInline
  | .UnknownModule n => .UnknownModule n
  | .UnknownMethod n => .UnknownMethod n
  | .InvalidArgs m => .InvalidArgs m
  | .CompileTimeArg n => .CompileTimeArg n
  | .SomethingElseWentWrong m => .SomethingElseWentWrong m
  | .ModuleInitTwice n => .ModuleInitTwice n
  | .EqInNormalExpr => .EqInNormalExpr
  | .NormalInEqExpr => .NormalInEqExpr
  | .UseOutsideGlobalScope => .UseOutsideGlobalScope

/-- Constructor-wise embedding of the older error type into the current
error kinds. -/
def CompilerError.toErrorType : CompilerError → ErrorType
  | .NonexistentVar n => .NonexistentVar n
  | .NonexistentInlineVar n => .NonexistentInlineVar n
  | .TooManyVars => .TooManyVars
  | .ForbiddenInline => .ForbiddenInline
  | .UnknownModule n => .UnknownModule n
  | .UnknownMethod n => .UnknownMethod n
  | .InvalidArgs m => .InvalidArgs m
  | .CompileTimeArg n => .CompileTimeArg n
  | .SomethingElseWentWrong m => .SomethingElseWentWrong m
  | .ModuleInitTwice n => .ModuleInitTwice n
  | .EqInNormalExpr => .EqInNormalExpr
  | .NormalInEqExpr => .NormalInEqExpr
  | .UseOutsideGlobalScope => .UseOutsideGlobalScope

/-- Placeholder for Rust `format!("{:?}", ...)` renderings that only feed
error messages; the exact text is not modelled. -/
def args_debug_string (_args : List Expression) : String := ""

/-- Placeholder for the Rust `Debug` rendering of one expression. -/
def expr_debug_string (_e : Expression) : String := ""

/-- Argument-descriptor type of `module/mod.rs` (`enum Arg`). -/
inductive Arg where
  | Number (name : String)
  | Constant (name : String)

/-- Check loop of `arg_parse`: every `Constant` descriptor must evaluate as
a compile-time constant; other errors of the constant evaluator propagate. -/
def arg_parse_check (c : Compiler) (location : Range) :
    List (Arg × Expression) → Except Error Unit
  | [] => .ok ()
  | (typ, arg) :: rest =>
    match typ with
    | .Number _ => arg_parse_check c location rest
    | .Constant name =>
      match c.try_get_constant arg with
      | .ok (some _) => arg_parse_check c location rest
      | .ok none =>
        .error ⟨.InvalidArgs (name ++ " has to be known at compile-time"), location⟩
      | .error err => .error err

/-- Argument parsing helper, `arg_parse` in `module/mod.rs` (in the
revision with an explicit call location, as `module/list.rs` invokes it):
count mismatch is `InvalidArgs`, and `Constant` descriptors must be
compile-time constants. -/
def arg_parse (c : Compiler) (types : List Arg) (args : List Expression)
    (location : Range) : Except Error Unit :=
  if types.length ≠ args.length then
    .error ⟨.InvalidArgs "Wrong number of Arguments", location⟩
  else arg_parse_check c location (types.zip args)

/-- Screen operation register (`SCREENOP_REG = 32 + 6`). -/
def SCREENOP_REG : Nat := 38

/-- Screen position register (`SCREENPOS_REG = 32 + 7`). -/
def SCREENPOS_REG : Nat := 39

/-- Screen op-code write, `write_screenop` in `module/screen.rs`. -/
def write_screenop (c : Compiler) (op : Nat) : Compiler :=
  (c.push_instr ⟨.LAL, some op⟩).push_instr ⟨.SVA, some SCREENOP_REG⟩

/-- Argument-free screen operation, `screen_operation` in
`module/screen.rs`. -/
def screen_operation (c : Compiler) (call : Call) (op : Nat) :
    Except Error Compiler := do
  let _u ← arg_parse c [] call.args call.location
  .ok (write_screenop c op)

/-- Initialization test of the list module (`is_initialized`). -/
def list_is_initialized (c : Compiler) : Bool :=
  c.module_state.list_init == some true

/-- Slot selection of the list module, `find_pointer_var_slot` in
`module/list.rs`: `slots.iter().rev().position(|slot| !*slot)` — the
position of the first free slot within the reversed iterator. -/
def find_pointer_var_slot (slots : List Bool) (location : Range) :
    Except Error Nat :=
  match list_position (fun slot => !slot) slots.reverse with
  | some k => .ok k
  | none => .error ⟨.TooManyVars, location⟩

/-- Initialization hook of the list module, `init` in `module/list.rs`:
a second initialization is `ModuleInitTwice`; otherwise the slot returned
by `find_pointer_var_slot` is recorded under the `POINTER` key and the
`INIT` flag is set. -/
def list_init (c : Compiler) (location : Range) : Except Error Compiler :=
  if list_is_initialized c then
    .error ⟨.ModuleInitTwice "list", location⟩
  else do
    let slot ← find_pointer_var_slot c.vars location
    .ok { c with
      module_state := { c.module_state with list_ptr := some slot, list_init := some true } }

/-- Method `list.pop`, from `module/list.rs`. -/
def list_pop (c : Compiler) (call : Call) : Except Error Compiler :=
  match call.args with
  | [] =>
    let pointer := c.module_state.list_ptr.getD 0
    let c₁ := if c.last_scope.state.a ≠ .Variable pointer then
        c.push_instr ⟨.LA, some pointer⟩ else c
    .ok (((((c₁.push_instr ⟨.LBL, some 1⟩).push_instr ⟨.SUB, none⟩).push_instr
      ⟨.SVA, some pointer⟩).push_instr ⟨.RC, none⟩).push_instr ⟨.RR, none⟩)
  | _ => .error ⟨.InvalidArgs "Wrong number of Arguments", call.location⟩

/-- Method `list.get_pointer`, from `module/list.rs`. -/
def list_get_pointer (c : Compiler) (call : Call) : Except Error Compiler :=
  match call.args with
  | [] =>
    let pointer := c.module_state.list_ptr.getD 0
    .ok (c.push_instr ⟨.LA, some pointer⟩)
  | _ => .error ⟨.InvalidArgs "Wrong number of Arguments", call.location⟩

/-- Method `list.last`, from `module/list.rs`. -/
def list_last (c : Compiler) (call : Call) : Except Error Compiler :=
  match call.args with
  | [] =>
    let pointer := c.module_state.list_ptr.getD 0
    let c₁ := if c.last_scope.state.a ≠ .Variable pointer then
        c.push_instr ⟨.LA, some pointer⟩ else c
    .ok ((((c₁.push_instr ⟨.LBL, some 1⟩).push_instr ⟨.SUB, none⟩).push_instr
      ⟨.RC, none⟩).push_instr ⟨.RR, none⟩)
  | _ => .error ⟨.InvalidArgs "Wrong number of Arguments", call.location⟩

/-- Method `io.read`, from `module/io.rs` (older module API: unlocated
errors, `Option`-valued constant recovery). -/
def io_read (c : Compiler) (call : ModuleCall) : Except CompilerError Compiler :=
  match call.args with
  | [arg] =>
    match c.try_get_constant_opt arg with
    | none => .error (.InvalidArgs "Input slot has to be known at compile time")
    | some slot =>
      if 0 ≤ slot ∧ slot < 8 then
        .ok (c.push_instr ⟨.LA, some (slot.toNat + 32)⟩)
      else .error (.InvalidArgs "Input slot has to be from 0 to 7")
  | _ => .error (.InvalidArgs (args_debug_string call.args))

/-- Registered module names; from the `thread_local!` registration table of
`module/mod.rs` (the `exist` lookup imported by `compiler.rs` is absent
from `src` and is modelled from the spec as membership in that table). -/
def module_exist (name : String) : Bool :=
  ["io", "screen", "ram", "list"].contains name

/-- Module init dispatch: only the list module registers an `init` hook in
`module/mod.rs`. The `init` dispatch function imported by `compiler.rs` is
absent from `src` and is modelled from the spec. -/
def module_init (name : String) (c : Compiler) (location : Range) :
    Except Error Compiler :=
  if name == "list" then list_init c location else .ok c

/-- Registration of a loaded module (`self.modules.insert`, a `HashSet`). -/
def insert_module (modules : List String) (m : String) : List String :=
  if modules.contains m then modules else modules ++ [m]

/-- Error returned only on fuel exhaustion, a modelling artifact: the source
recursion is structural on the AST, so any fuel above the nesting depth of
the input never produces this. -/
def fuel_error : Error := ⟨.SomethingElseWentWrong "out of fuel", default⟩

/-- Fuel-exhaustion marker for the older module API. -/
def fuel_error_c : CompilerError := .SomethingElseWentWrong "out of fuel"

mutual

/-- Statement dispatch, `Compiler::eval_statement`. -/
def eval_statement : Nat → Compiler → Expression → Except Error Compiler
  | 0, _, _ => .error fuel_error
  | fuel + 1, c, line =>
    match line with
    | .inlineDeclaration symbol value _ => do
      let v ← c.eval_after_inline value
      .ok (c.insert_inline_var symbol v)
    | .use module loc =>
      if !c.is_root_scope then .error ⟨.UseOutsideGlobalScope, loc⟩
      else if !module_exist module then .error ⟨.UnknownModule module, loc⟩
      else do
        let c₁ ← module_init module c loc
        .ok { c₁ with modules := insert_module c₁.modules module }
    | .varDeclaration symbol loc => do
      let r ← c.insert_var symbol loc
      .ok r.2
    | .pass _ => .ok c
    | .endlessLoop body _ =>
      let mark := c.first_scope.instructions.scope_len
      let r := c.insert_jump_mark
      let c₂ := r.2.set_jump_mark r.1 mark
      do
        let c₃ ← push_scope fuel c₂ body {}
        let c₄ := c₃.pop_scope
        .ok (c₄.push_instr ⟨.JMP, some r.1⟩)
    | .whileLoop condition body _ => do
      let cond ← eval_condition condition
      let (left, right, operator) := cond
      let rs := c.insert_jump_mark
      let start_id := rs.1
      let re := rs.2.insert_jump_mark
      let end_id := re.1
      let c₃ ← put_comparison fuel re.2 left right operator.opposite end_id
      let start := c₃.first_scope.instructions.scope_len
      let c₄ := c₃.set_jump_mark start_id start
      let c₅ ← push_scope fuel c₄ body c₄.last_scope.state
      let c₆ ← put_comparison fuel c₅ left right operator start_id
      let c₇ := c₆.pop_scope
      let endv := c₇.first_scope.instructions.scope_len
      .ok (c₇.set_jump_mark end_id endv)
    | .conditional condition body paths alternate _ =>
      eval_conditional fuel c condition body paths alternate
    | e => eval_expr fuel c e

/-- Sequential statement evaluation (`try_for_each` over a body). -/
def eval_body : Nat → Compiler → List Expression → Except Error Compiler
  | 0, _, _ => .error fuel_error
  | _ + 1, c, [] => .ok c
  | fuel + 1, c, line :: rest => do
    let c₁ ← eval_statement fuel c line
    eval_body fuel c₁ rest

/-- Conditional chain lowering, `Compiler::eval_conditional`. -/
def eval_conditional (fuel : Nat) (c : Compiler) (condition : Expression)
    (body : List Expression) (paths : List (Expression × List Expression))
    (alternate : Option (List Expression)) : Except Error Compiler :=
  match fuel with
  | 0 => .error fuel_error
  | fuel + 1 => do
    let cond ← eval_condition condition
    let (left, right, operator) := cond
    let re := c.insert_jump_mark
    let end_id := re.1
    let rn := re.2.insert_jump_mark
    let next_mark_id := rn.1
    let c₃ ← put_comparison fuel rn.2 left right operator.opposite next_mark_id
    let last_state := c₃.last_scope.state
    let c₄ ← push_scope fuel c₃ body last_state
    let c₅ := if paths.length ≠ 0 || alternate.isSome then
        c₄.push_instr ⟨.JMP, some end_id⟩ else c₄
    let c₆ := c₅.pop_scope
    let c₇ := c₆.set_jump_mark next_mark_id c₆.first_scope.instructions.scope_len
    let rp ← eval_paths fuel c₇ paths 0 paths.length alternate.isSome end_id last_state
    let c₈ := rp.1
    let c₉ ← match alternate with
      | some altBody => do
        let cc ← push_scope fuel c₈ altBody rp.2
        .ok cc.pop_scope
      | none => .ok c₈
    .ok (c₉.set_jump_mark end_id c₉.first_scope.instructions.scope_len)

/-- The `paths.into_iter().enumerate().try_for_each` loop of
`Compiler::eval_conditional`; returns the compiler and the `last_state`
captured for the `else` branch. -/
def eval_paths : Nat → Compiler → List (Expression × List Expression) →
    Nat → Nat → Bool → Nat → ComputerState →
    Except Error (Compiler × ComputerState)
  | 0, _, _, _, _, _, _, _ => .error fuel_error
  | _ + 1, c, [], _, _, _, _, last_state => .ok (c, last_state)
  | fuel + 1, c, (condition, body) :: rest, index, path_len, altSome, end_id,
      _last_state => do
    let cond ← eval_condition condition
    let (left, right, operator) := cond
    let rn := c.insert_jump_mark
    let next_mark_id := rn.1
    let c₂ ← put_comparison fuel rn.2 left right operator.opposite next_mark_id
    let ls := c₂.last_scope.state
    let c₃ ← push_scope fuel c₂ body ls
    let c₄ := if index ≠ path_len - 1 || altSome then
        c₃.push_instr ⟨.JMP, some end_id⟩ else c₃
    let c₅ := c₄.pop_scope
    let c₆ := c₅.set_jump_mark next_mark_id c₅.first_scope.instructions.scope_len
    eval_paths fuel c₆ rest (index + 1) path_len altSome end_id ls

/-- Scope push plus body evaluation, `Compiler::push_scope` (the matching
pop is at each caller, as in the source). -/
def push_scope (fuel : Nat) (c : Compiler) (body : List Expression)
    (state : ComputerState) : Except Error Compiler :=
  match fuel with
  | 0 => .error fuel_error
  | fuel + 1 => eval_body fuel (c.enter_scope state) body

/-- Expression dispatch, `Compiler::eval_expr`: leaves register A holding
the expression's value. The `todo!()` of the source's fall-through arm is
modelled as an internal error. -/
def eval_expr : Nat → Compiler → Expression → Except Error Compiler
  | 0, _, _ => .error fuel_error
  | fuel + 1, c, expr =>
    match expr with
    | .numericLiteral _ _ => put_into_a fuel c expr
    | .identifier _ _ => put_into_a fuel c expr
    | .binaryExpr left right operator _ => eval_binary_expr fuel c left right operator
    | .assignment symbol value _ => eval_assignment fuel c symbol value
    | .call args function _ => eval_call fuel c function args
    | .eqExpr _ _ _ loc => .error ⟨.EqInNormalExpr, loc⟩
    | .debug _ => .ok (c.push_instr ⟨.LAL, some 17⟩)
    | e => .error ⟨.SomethingElseWentWrong "todo: unsupported expression", e.location⟩

/-- Binary expression lowering, `Compiler::eval_binary_expr`. -/
def eval_binary_expr (fuel : Nat) (c : Compiler) (left right : Expression)
    (operator : Operator) : Except Error Compiler :=
  match fuel with
  | 0 => .error fuel_error
  | fuel + 1 => do
    let r ← put_ab fuel c left right operator.is_commutative
    .ok (r.1.put_op operator)

/-- Operand arbitration, `Compiler::put_ab`: decides which operand lands in
A and which in B, returns whether the operands were swapped. -/
def put_ab : Nat → Compiler → Expression → Expression → Bool →
    Except Error (Compiler × Bool)
  | 0, _, _, _, _ => .error fuel_error
  | fuel + 1, c, left, right, is_comm =>
    match Compiler.can_put_into_a left, Compiler.can_put_into_b right with
    | true, true =>
      if is_comm && ((c.is_in_a right || c.is_in_b left) ||
          (right.is_identifier && left.is_numeric_literal)) then do
        let c₁ ← put_into_a fuel c right
        let c₂ ← c₁.put_into_b left
        .ok (c₂, true)
      else do
        let c₁ ← put_into_a fuel c left
        let c₂ ← c₁.put_into_b right
        .ok (c₂, false)
    | true, false => do
      let c₁ ← eval_expr fuel c right
      if is_comm && Compiler.can_put_into_b left then do
        let c₂ ← c₁.put_into_b left
        .ok (c₂, true)
      else do
        let c₂ ← match right with
          | .assignment symbol _ _ =>
            -- the source `unwrap`s `get_var(symbol, Range::default())`; the
            -- variable was just stored by `eval_expr`, so the lookup succeeds
            .ok (c₁.push_instr ⟨.LB, some ((c₁.get_var_noerror symbol).getD 0)⟩)
          | _ => c₁.switch left.location
        let c₃ ← put_into_a fuel c₂ left
        .ok (c₃, false)
    | false, true => do
      let c₁ ← eval_expr fuel c left
      let c₂ ← c₁.put_into_b right
      .ok (c₂, false)
    | false, false => do
      let c₁ ← eval_expr fuel c right
      match right with
      | .assignment symbol _ _ => do
        let c₂ ← eval_expr fuel c₁ left
        .ok (c₂.push_instr ⟨.LB, some ((c₂.get_var_noerror symbol).getD 0)⟩, false)
      | _ => do
        let rt ← c₁.insert_temp_var left.location
        let c₃ := rt.2.push_instr ⟨.SVA, some rt.1⟩
        let c₄ ← eval_expr fuel c₃ left
        let c₅ := c₄.push_instr ⟨.LB, some rt.1⟩
        .ok (c₅.cleanup_temp_var rt.1, false)

/-- Loading of a simple operand into register A, `Compiler::put_into_a`. -/
def put_into_a : Nat → Compiler → Expression → Except Error Compiler
  | 0, _, _ => .error fuel_error
  | fuel + 1, c, expr =>
    match expr with
    | .numericLiteral value _ => .ok (c.put_a_number value)
    | .identifier symbol loc =>
      match c.get_inline_var symbol loc with
      | .ok value => .ok (c.put_a_number value)
      | .error _ => do
        let var ← c.get_var symbol loc
        if c.last_scope.state.a == .Variable var then .ok c
        else .ok (c.push_instr ⟨.LA, some var⟩)
    | .assignment _ _ _ =>
      if Compiler.can_put_into_a expr then eval_expr fuel c expr
      else .error ⟨.SomethingElseWentWrong "put_a", expr.location⟩
    | e => .error ⟨.SomethingElseWentWrong "put_a called on wrong expression", e.location⟩

/-- Comparison emission, `Compiler::put_comparison`: load the operands with
commutative arbitration and emit the jump opcode of the operator, turned
around when the arbitration swapped the operands; the jump's arg is the
mark id. -/
def put_comparison (fuel : Nat) (c : Compiler) (left right : Expression)
    (operator : EqualityOperator) (jump_to : Nat) : Except Error Compiler :=
  match fuel with
  | 0 => .error fuel_error
  | fuel + 1 => do
    let r ← put_ab fuel c left right true
    let op := if r.2 then operator.turnaround else operator
    .ok (r.1.push_instr ⟨.from_op op, some jump_to⟩)

/-- Assignment lowering, `Compiler::eval_assignment`: declare (or reuse)
the slot, evaluate the value into A, store with `SVA`. -/
def eval_assignment (fuel : Nat) (c : Compiler) (symbol : String)
    (value : Expression) : Except Error Compiler :=
  match fuel with
  | 0 => .error fuel_error
  | fuel + 1 => do
    let rs ← c.insert_var symbol value.location
    let c₂ ← eval_expr fuel rs.2 value
    .ok (c₂.push_instr ⟨.SVA, some rs.1⟩)

/-- Module call lowering, `Compiler::eval_call`: the callee must be
`module.method`, the module must be loaded, then the call is forwarded to
the module dispatcher. -/
def eval_call (fuel : Nat) (c : Compiler) (function : Expression)
    (args : List Expression) : Except Error Compiler :=
  match fuel with
  | 0 => .error fuel_error
  | fuel + 1 =>
    match function with
    | .member object property _ =>
      match object with
      | .identifier symbol _ =>
        if !c.modules.contains symbol then
          .error ⟨.UnknownModule symbol, function.location⟩
        else
          module_call fuel symbol c ⟨property, args, function.location⟩
      | o => .error ⟨.UnknownModule (expr_debug_string o), function.location⟩
    | f => .error ⟨.UnknownMethod (expr_debug_string f), function.location⟩

/-- Module dispatch. Modelled from the spec: the `call` function imported
by `compiler.rs` is absent from `src`; per the spec it looks the module up
in the registration table of `module/mod.rs` and forwards the call. Errors
of the io module's older API are forwarded with the call's location. -/
def module_call (fuel : Nat) (module : String) (c : Compiler) (call : Call) :
    Except Error Compiler :=
  match fuel with
  | 0 => .error fuel_error
  | fuel + 1 =>
    if module == "io" then
      match io_module fuel c ⟨call.method_name, call.args⟩ with
      | .ok c' => .ok c'
      | .error ce => .error ⟨ce.toErrorType, call.location⟩
    else if module == "screen" then screen_module fuel c call
    else if module == "ram" then ram_module fuel c call
    else if module == "list" then list_module fuel c call
    else .error ⟨.UnknownModule module, call.location⟩

/-- Method dispatch of the io module, `io_module` in `module/io.rs`. -/
def io_module (fuel : Nat) (c : Compiler) (call : ModuleCall) :
    Except CompilerError Compiler :=
  match fuel with
  | 0 => .error fuel_error_c
  | fuel + 1 =>
    if call.method_name == "write" then io_write fuel c call
    else if call.method_name == "read" then io_read c call
    else .error (.UnknownMethod call.method_name)

/-- Method `io.write`, from `module/io.rs`: the out-slot (last argument)
must be a compile-time constant in `[0, 8)`; the value is evaluated into A
and stored with `SVA (slot + 32)`. -/
def io_write (fuel : Nat) (c : Compiler) (call : ModuleCall) :
    Except CompilerError Compiler :=
  match fuel with
  | 0 => .error fuel_error_c
  | fuel + 1 =>
    match call.args with
    | [value, slotArg] =>
      match c.try_get_constant_opt slotArg with
      | none => .error (.InvalidArgs "Output slot has to be known at compile time")
      | some slot =>
        if 0 ≤ slot ∧ slot < 8 then
          match eval_expr fuel c value with
          | .ok c₁ => .ok (c₁.push_instr ⟨.SVA, some (slot.toNat + 32)⟩)
          | .error e => .error e.typ.toCompilerError
        else .error (.InvalidArgs "Output slot has to be from 0 to 7")
    | _ => .error (.InvalidArgs (args_debug_string call.args))

/-- Method dispatch of the list module, `module` in `module/list.rs`. -/
def list_module (fuel : Nat) (c : Compiler) (call : Call) :
    Except Error Compiler :=
  match fuel with
  | 0 => .error fuel_error
  | fuel + 1 =>
    if call.method_name == "add" then list_add fuel c call
    else if call.method_name == "pop" then list_pop c call
    else if call.method_name == "get_pointer" then list_get_pointer c call
    else if call.method_name == "set_pointer" then list_set_pointer fuel c call
    else if call.method_name == "last" then list_last c call
    else if call.method_name == "at" then list_at fuel c call
    else .error ⟨.UnknownMethod call.method_name, call.location⟩

/-- Method `list.add`, from `module/list.rs`. -/
def list_add (fuel : Nat) (c : Compiler) (call : Call) : Except Error Compiler :=
  match fuel with
  | 0 => .error fuel_error
  | fuel + 1 =>
    match call.args with
    | [value] => do
      let _u ← arg_parse c [Arg.Number "value"] call.args call.location
      let pointer := c.module_state.list_ptr.getD 0
      let c₁ ← eval_expr fuel c value
      let c₂ := if c₁.last_scope.state.b ≠ .Variable pointer then
          c₁.push_instr ⟨.LB, some pointer⟩ else c₁
      .ok (((((c₂.push_instr ⟨.RC, none⟩).push_instr ⟨.RW, none⟩).push_instr
        ⟨.LAL, some 1⟩).push_instr ⟨.ADD, none⟩).push_instr ⟨.SVA, some pointer⟩)
    | _ => .error ⟨.InvalidArgs "Wrong number of Arguments", call.location⟩

/-- Method `list.set_pointer`, from `module/list.rs`. -/
def list_set_pointer (fuel : Nat) (c : Compiler) (call : Call) :
    Except Error Compiler :=
  match fuel with
  | 0 => .error fuel_error
  | fuel + 1 =>
    match call.args with
    | [value] => do
      let _u ← arg_parse c [Arg.Number "value"] call.args call.location
      let pointer := c.module_state.list_ptr.getD 0
      let c₁ ← eval_expr fuel c value
      .ok (c₁.push_instr ⟨.SVA, some pointer⟩)
    | _ => .error ⟨.InvalidArgs "Wrong number of Arguments", call.location⟩

/-- Method `list.at`, from `module/list.rs`. -/
def list_at (fuel : Nat) (c : Compiler) (call : Call) : Except Error Compiler :=
  match fuel with
  | 0 => .error fuel_error
  | fuel + 1 =>
    match call.args with
    | [address] => do
      let _u ← arg_parse c [Arg.Number "address"] call.args call.location
      let location := address.location
      let c₁ ←
        if Compiler.can_put_into_b address then c.put_into_b address
        else do
          let ca ← eval_expr fuel c address
          match address with
          | .assignment symbol _ _ => do
            let var ← ca.get_var symbol location
            .ok (ca.push_instr ⟨.LB, some var⟩)
          | _ => ca.switch location
      let c₂ := match c₁.try_get_constant_opt address with
        | some value =>
          if c₁.last_scope.state.ram_page == RamPage.ThisOne (toU16 (Int.tdiv value 16) % 256)
          then c₁ else c₁.push_instr ⟨.RC, none⟩
        | none => c₁.push_instr ⟨.RC, none⟩
      .ok (c₂.push_instr ⟨.RR, none⟩)
    | _ => .error ⟨.InvalidArgs "Wrong number of Arguments", call.location⟩

/-- Method dispatch of the ram module (the `modul!` macro of
`module/ram.rs` generates the read/write/copy dispatch). -/
def ram_module (fuel : Nat) (c : Compiler) (call : Call) :
    Except Error Compiler :=
  match fuel with
  | 0 => .error fuel_error
  | fuel + 1 =>
    if call.method_name == "read" then ram_read fuel c call
    else if call.method_name == "write" then ram_write fuel c call
    else if call.method_name == "copy" then ram_copy fuel c call
    else .error ⟨.UnknownMethod call.method_name, call.location⟩

/-- Method `ram.read`, from `module/ram.rs`. -/
def ram_read (fuel : Nat) (c : Compiler) (call : Call) : Except Error Compiler :=
  match fuel with
  | 0 => .error fuel_error
  | fuel + 1 =>
    match call.args with
    | [address] => do
      let _u ← arg_parse c [Arg.Number "address"] call.args call.location
      let c₁ ← put_address fuel c address call.location
      .ok (c₁.push_instr ⟨.RR, none⟩)
    | _ => .error ⟨.InvalidArgs "Wrong number of Arguments", call.location⟩

/-- Method `ram.write`, from `module/ram.rs`. -/
def ram_write (fuel : Nat) (c : Compiler) (call : Call) : Except Error Compiler :=
  match fuel with
  | 0 => .error fuel_error
  | fuel + 1 =>
    match call.args with
    | [value, address] => do
      let _u ← arg_parse c [Arg.Number "value", Arg.Number "address"]
        call.args call.location
      let cm ←
        match Compiler.can_put_into_a value, Compiler.can_put_into_b address with
        | true, _ => do
          let c₁ ← put_address fuel c address call.location
          put_into_a fuel c₁ value
        | false, true => do
          let c₁ ← eval_expr fuel c value
          put_address fuel c₁ address call.location
        | false, false => do
          let c₁ ← eval_expr fuel c value
          match value with
          | .assignment symbol _ _ => do
            let c₂ ← put_address fuel c₁ address call.location
            let var ← c₂.get_var symbol call.location
            .ok (c₂.push_instr ⟨.LA, some var⟩)
          | _ => do
            let rt ← c₁.insert_temp_var call.location
            let c₃ := rt.2.push_instr ⟨.SVA, some rt.1⟩
            let c₄ ← put_address fuel c₃ address call.location
            let c₅ := c₄.push_instr ⟨.LA, some rt.1⟩
            .ok (c₅.cleanup_temp_var rt.1)
      .ok (cm.push_instr ⟨.RW, none⟩)
    | _ => .error ⟨.InvalidArgs "Wrong number of Arguments", call.location⟩

/-- Method `ram.copy`, from `module/ram.rs` (the temporary claimed in the
complex-`to` branch is, as in the source, never released). -/
def ram_copy (fuel : Nat) (c : Compiler) (call : Call) : Except Error Compiler :=
  match fuel with
  | 0 => .error fuel_error
  | fuel + 1 =>
    match call.args with
    | [fromE, toE] => do
      let _u ← arg_parse c [Arg.Number "from", Arg.Number "to"]
        call.args call.location
      let c₁ ← put_address fuel c fromE call.location
      let c₂ := c₁.push_instr ⟨.RR, none⟩
      let c₃ ←
        if Compiler.can_put_into_b toE then put_address fuel c₂ toE call.location
        else do
          let rt ← c₂.insert_temp_var call.location
          let cb := rt.2.push_instr ⟨.SVA, some rt.1⟩
          let cc ← put_address fuel cb toE call.location
          .ok (cc.push_instr ⟨.LA, some rt.1⟩)
      .ok (c₃.push_instr ⟨.RW, none⟩)
    | _ => .error ⟨.InvalidArgs "Wrong number of Arguments", call.location⟩

/-- Address loading of the ram module, `put_address` in `module/ram.rs`:
puts the address into B and emits `RC` when needed. -/
def put_address (fuel : Nat) (c : Compiler) (address : Expression)
    (location : Range) : Except Error Compiler :=
  match fuel with
  | 0 => .error fuel_error
  | fuel + 1 =>
    match c.try_get_constant_opt address with
    | some value =>
      let c₁ := if c.last_scope.state.ram_page ≠ RamPage.ThisOne (toU16 (Int.tdiv value 16) % 256)
        then c.push_instr ⟨.RC, none⟩ else c
      .ok (c₁.put_b_number value)
    | none =>
      let c₁ := c.push_instr ⟨.RC, none⟩
      if Compiler.can_put_into_b address then c₁.put_into_b address
      else if Compiler.can_put_into_a address then do
        let c₂ ← put_into_a fuel c₁ address
        match address with
        | .assignment symbol _ _ => do
          let var ← c₂.get_var symbol location
          .ok (c₂.push_instr ⟨.LB, some var⟩)
        | _ => .ok c₂
      else do
        let c₂ ← eval_expr fuel c₁ address
        c₂.switch location

/-- Method dispatch of the screen module, `module` in `module/screen.rs`. -/
def screen_module (fuel : Nat) (c : Compiler) (call : Call) :
    Except Error Compiler :=
  match fuel with
  | 0 => .error fuel_error
  | fuel + 1 =>
    if call.method_name == "flip" then screen_operation c call 1
    else if call.method_name == "clear" then screen_operation c call 2
    else if call.method_name == "set_at" then pixel_operation fuel c call 4
    else if call.method_name == "invert_at" then pixel_operation fuel c call 8
    else if call.method_name == "off_at" then pixel_operation fuel c call 16
    else if call.method_name == "set" then whole_pixel_operation fuel c call 4
    else if call.method_name == "invert" then whole_pixel_operation fuel c call 8
    else if call.method_name == "off" then whole_pixel_operation fuel c call 16
    else .error ⟨.UnknownMethod call.method_name, call.location⟩

/-- Positioned pixel operation, `pixel_operation` in `module/screen.rs`. -/
def pixel_operation (fuel : Nat) (c : Compiler) (call : Call) (op : Nat) :
    Except Error Compiler :=
  match fuel with
  | 0 => .error fuel_error
  | fuel + 1 =>
    match call.args with
    | [x, y] => do
      let _u ← arg_parse c [Arg.Number "x", Arg.Number "y"] call.args call.location
      let c₁ ← write_screenpos fuel c x y call.location
      .ok (write_screenop c₁ op)
    | _ => .error ⟨.InvalidArgs "Wrong number of Arguments", call.location⟩

/-- Packed-position pixel operation, `whole_pixel_operation` in
`module/screen.rs`. -/
def whole_pixel_operation (fuel : Nat) (c : Compiler) (call : Call) (op : Nat) :
    Except Error Compiler :=
  match fuel with
  | 0 => .error fuel_error
  | fuel + 1 =>
    match call.args with
    | [pos] => do
      let _u ← arg_parse c [Arg.Number "pos"] call.args call.location
      let c₁ ← eval_expr fuel c pos
      let c₂ := c₁.push_instr ⟨.SVA, some SCREENPOS_REG⟩
      .ok (write_screenop c₂ op)
    | _ => .error ⟨.InvalidArgs "Wrong number of Arguments", call.location⟩

/-- Position write, `write_screenpos` in `module/screen.rs`. -/
def write_screenpos (fuel : Nat) (c : Compiler) (x y : Expression)
    (location : Range) : Except Error Compiler :=
  match fuel with
  | 0 => .error fuel_error
  | fuel + 1 => do
    let c₁ ← put_xy fuel c x y location 8
    .ok (c₁.push_instr ⟨.SVA, some SCREENPOS_REG⟩)

/-- Packing of an `(upper, lower)` pair as `upper << offset | lower` with
constant folding, `put_xy` in `module/screen.rs`. -/
def put_xy (fuel : Nat) (c : Compiler) (upper lower : Expression)
    (location : Range) (offset : Nat) : Except Error Compiler :=
  match fuel with
  | 0 => .error fuel_error
  | fuel + 1 =>
    match c.try_get_constant_opt upper, c.try_get_constant_opt lower with
    | some u, some l => .ok (c.put_a_number (or16 (shl16 u (Int.ofNat offset)) l))
    | some u, none => do
      let c₁ ← eval_expr fuel c lower
      let c₂ := c₁.put_b_number (shl16 u (Int.ofNat offset))
      .ok (c₂.push_instr ⟨.OR, none⟩)
    | none, some l => do
      let c₁ ← eval_expr fuel c upper
      let c₂ := c₁.push_instr ⟨.SUP, some offset⟩
      let c₃ := c₂.put_b_number l
      .ok (c₃.push_instr ⟨.OR, none⟩)
    | none, none =>
      if Compiler.can_put_into_b lower then do
        let c₁ ← eval_expr fuel c upper
        let c₂ := c₁.push_instr ⟨.SUP, some offset⟩
        let c₃ ← c₂.put_into_b lower
        .ok (c₃.push_instr ⟨.OR, none⟩)
      else do
        let rt ← c.insert_temp_var location
        let c₂ ← eval_expr fuel rt.2 lower
        let c₃ := c₂.push_instr ⟨.SVA, some rt.1⟩
        let c₄ ← eval_expr fuel c₃ upper
        let c₅ := c₄.push_instr ⟨.SUP, some offset⟩
        let c₆ := c₅.push_instr ⟨.LB, some rt.1⟩
        .ok ((c₆.cleanup_temp_var rt.1).push_instr ⟨.OR, none⟩)

end

/-- Whole-program compilation, `compile_program` /
`Compiler::generate_assembly`: evaluate every top-level statement on a
fresh compiler, then flatten and link. -/
def compile_program (fuel : Nat) (ast : List Expression) :
    Except Error (List Instruction) := do
  let c ← eval_body fuel Compiler.new ast
  .ok c.get_instructions

/-- Inline-namespace environment induced by a compiler state: the
innermost-first lookup of inline variables. -/
def inline_env (c : Compiler) (name : String) : Option Int :=
  scanInline (c.scopes.1 :: c.scopes.2) name

/-- Specification-side pure inline evaluator. Modelled from the spec's
words: the i16 value obtained by wrapping (two's-complement) arithmetic
over numeric literals, bound inline identifiers and the six binary
operators. Compared against `Compiler.eval_after_inline` below. -/
def spec_inline_value (env : String → Option Int) : Expression → Option Int
  | .numericLiteral v _ => some v
  | .identifier n _ => env n
  | .binaryExpr l r op _ =>
    match spec_inline_value env l, spec_inline_value env r with
    | some a, some b =>
      some (match op with
        | .Plus => add16 a b
        | .Minus => sub16 a b
        | .Mult => mul16 a b
        | .And => and16 a b
        | .Or => or16 a b
        | .Xor => xor16 a b)
    | _, _ => none
  | _ => none

/-- Grammar of inline-evaluable expressions relative to an environment:
numeric literals, identifiers bound in the inline namespace, and the six
binary operators. -/
inductive InlineOk (env : String → Option Int) : Expression → Prop where
  | lit (v : Int) (loc : Range) : InlineOk env (.numericLiteral v loc)
  | ident (n : String) (v : Int) (loc : Range) (h : env n = some v) :
      InlineOk env (.identifier n loc)
  | binop (l r : Expression) (op : Operator) (loc : Range)
      (hl : InlineOk env l) (hr : InlineOk env r) :
      InlineOk env (.binaryExpr l r op loc)

/-- Top-level form test: the three expression forms the inline evaluator
accepts. -/
def is_inline_form : Expression → Bool
  | .numericLiteral _ _ | .identifier _ _ | .binaryExpr _ _ _ _ => true
  | _ => false

/-- Page-selector adjacency: every far (disc) jump is immediately preceded
by an `LCL` instruction. -/
def lcl_adjacent (v : List Instruction) : Prop :=
  ∀ j inst, v[j]? = some inst → inst.variant.disc_jump = true →
    j ≠ 0 ∧ ∃ p, v[j - 1]? = some ⟨.LCL, some p⟩

/-- C1: for every while-loop statement whose condition is an equality
expression, lowering should emit the skip comparison, the body in a fresh
scope, and the back comparison, with the start mark bound to the position
immediately after the first comparison and the end mark to the position
immediately after the back-jump. The code computes both positions as
`scope_len(scopes.first())`, which ignores instructions still pending in
open enclosing scopes: for this while loop nested in an `if` body, the
first comparison of the while ends at index 5, so the claimed targets are
6 (start) and 7 (end), but both recorded targets are 3 (the linked output
ends in `JGE 3; JL 3`), so the back-jump re-enters the program before the
loop's own comparison. -/
theorem c1_nested_while_eval :
    compile_program 20 [Expression.conditional
        (.eqExpr (.numericLiteral 0 default) (.numericLiteral 0 default) .EqualTo default)
        [.whileLoop (.eqExpr (.numericLiteral 1 default) (.numericLiteral 2 default)
            .Less default)
          [.pass default] default]
        [] none default] =
      .ok [⟨.LAL, some 0⟩, ⟨.LBL, some 0⟩, ⟨.JNE, some 7⟩, ⟨.LAL, some 1⟩,
           ⟨.LBL, some 2⟩, ⟨.JGE, some 3⟩, ⟨.JL, some 3⟩] := rfl

/-- C5: on `use list` the slot recorded as the list pointer should be the
highest-index free arena slot (31 on a fresh compiler) and should be
reserved for the rest of the program. The code records the position of the
first free slot within the *reversed* iterator (0 on a fresh compiler)
without marking it occupied, so the recorded pointer slot is 0 and the very
next declaration `var x` claims that same slot 0. The duplicate-init error
behaves as claimed. -/
theorem c5_list_init_eval :
    (eval_body 5 Compiler.new
        [.use "list" default, .varDeclaration "x" default]).toOption.map
        (fun c => (c.module_state.list_ptr, c.get_var_noerror "x",
          c.module_state.list_init)) =
      some (some 0, some 0, some true) ∧
    find_pointer_var_slot (List.replicate 32 false) default = .ok 0 ∧
    eval_body 5 Compiler.new [.use "list" default, .use "list" default] =
      .error ⟨.ModuleInitTwice "list", default⟩ :=
  ⟨rfl, rfl, rfl⟩

/-- C7 (counterexample): the claim says symbolic `RC` sets the RAM page to
`ThisOne(addr / 16)` whenever B holds `Number(addr)`; at `addr = 4112` the
quotient is 257, which does not fit a `u8`, and the code's
`try_into().unwrap_or(0)` yields `ThisOne 0` instead. -/
theorem c7_rc_counterexample :
    (Instruction.execute ⟨.RC, none⟩ { b := .Number 4112 }).ram_page ≠
      .ThisOne ((Int.tdiv 4112 16).toNat) := by decide

/-- C7 (amended): symbolic `RC` sets the RAM page to `ThisOne(addr / 16)`
(truncated quotient) when B holds `Number(addr)` and the quotient lies in
`[0, 256)`, to `ThisOne 0` when it does not, and to `Unknown` when B is not
a known number; registers A, B and C are unchanged. -/
theorem c7_rc_execute (s : ComputerState) :
    ((∀ address : Int, s.b = .Number address →
        (Instruction.execute ⟨.RC, none⟩ s).ram_page =
          .ThisOne (if 0 ≤ address.tdiv 16 ∧ address.tdiv 16 < 256
            then (address.tdiv 16).toNat else 0)) ∧
     ((∀ address : Int, s.b ≠ .Number address) →
        (Instruction.execute ⟨.RC, none⟩ s).ram_page = .Unknown)) ∧
    ((Instruction.execute ⟨.RC, none⟩ s).a = s.a ∧
     (Instruction.execute ⟨.RC, none⟩ s).b = s.b ∧
     (Instruction.execute ⟨.RC, none⟩ s).c = s.c) := by
  refine ⟨⟨fun address h => ?_, fun hall => ?_⟩, rfl, rfl, rfl⟩
  · simp [Instruction.execute, h]
  · cases hb : s.b
    case Number v => exact absurd hb (hall v)
    all_goals simp [Instruction.execute, hb]

/-- C7 witness: the amended theorem applied at a concrete state with
`B = Number 32`. -/
theorem c7_rc_execute_witness :
    (Instruction.execute ⟨.RC, none⟩
        ({ b := .Number 32 } : ComputerState)).ram_page =
      .ThisOne (if 0 ≤ Int.tdiv 32 16 ∧ Int.tdiv 32 16 < 256
        then (Int.tdiv 32 16).toNat else 0) :=
  (c7_rc_execute _).1.1 32 rfl

/-- C9: for every instruction accepted by the checked constructor,
`to_bin` is `(opcode_byte << 8) | arg` with the absent arg read as 0,
where the opcode byte packs `jump << 6 | disc_jump << 5 | id << 1 |
instant` (u8 arithmetic, so the shift of `id` drops its high bit), and the
constructor enforces `has_arg(opcode) ⇔ arg present`. -/
theorem c9_to_bin (variant : InstructionVariant) (arg : Option Nat)
    (i : Instruction) (h : Instruction.new variant arg = some i) :
    (i.to_bin =
      ((if variant.jump then 1 else 0) <<< 6 |||
        (if variant.disc_jump then 1 else 0) <<< 5 |||
        (variant.id <<< 1) % 256 |||
        (if variant.instant then 1 else 0)) <<< 8 ||| i.arg.getD 0) ∧
    (variant.has_arg = true ↔ arg.isSome = true) := by
  unfold Instruction.new at h
  by_cases hc : variant.has_arg = arg.isSome
  · rw [if_pos hc] at h
    cases h
    constructor
    · rw [Instruction.to_bin, Nat.lor_comm]
      rfl
    · rw [hc]
  · rw [if_neg hc] at h
    cases h

/-- C9 witness: the theorem applied at `LAL 5`. -/
theorem c9_to_bin_witness :
    (Instruction.to_bin ⟨.LAL, some 5⟩ =
      ((if InstructionVariant.LAL.jump then 1 else 0) <<< 6 |||
        (if InstructionVariant.LAL.disc_jump then 1 else 0) <<< 5 |||
        (InstructionVariant.LAL.id <<< 1) % 256 |||
        (if InstructionVariant.LAL.instant then 1 else 0)) <<< 8 |||
        ((some 5 : Option Nat).getD 0)) ∧
    (InstructionVariant.LAL.has_arg = true ↔ (some 5 : Option Nat).isSome = true) :=
  c9_to_bin .LAL (some 5) ⟨.LAL, some 5⟩ rfl


/-- C6 (counterexample): the claim says a non-constant out-slot fails with
`CompileTimeArg("Outslot")` carrying the argument's range; `io.rs` actually
returns the unlocated `InvalidArgs("Output slot has to be known at compile
time")`. -/
theorem c6_io_write_counterexample :
    io_write 1 Compiler.new
        ⟨"write", [.numericLiteral 1 default, .identifier "y" default]⟩ =
      .error (.InvalidArgs "Output slot has to be known at compile time") ∧
    CompilerError.InvalidArgs "Output slot has to be known at compile time" ≠
      .CompileTimeArg "Outslot" :=
  ⟨rfl, by decide⟩

/-- C6 (amended): for `io.write(value, outslot)`, a non-constant out-slot
fails with `InvalidArgs("Output slot has to be known at compile time")`
(unlocated, the older module API); a constant out-slot outside `[0, 8)`
fails with `InvalidArgs("Output slot has to be from 0 to 7")`; a constant
`k` in `[0, 8)` evaluates the value into A and emits `SVA (k + 32)`. -/
theorem c6_io_write_spec (fuel : Nat) (c : Compiler) (value slotArg : Expression) :
    (c.try_get_constant_opt slotArg = none →
      io_write (fuel + 1) c ⟨"write", [value, slotArg]⟩ =
        .error (.InvalidArgs "Output slot has to be known at compile time")) ∧
    (∀ k : Int, c.try_get_constant_opt slotArg = some k → ¬(0 ≤ k ∧ k < 8) →
      io_write (fuel + 1) c ⟨"write", [value, slotArg]⟩ =
        .error (.InvalidArgs "Output slot has to be from 0 to 7")) ∧
    (∀ (k : Int) (c₁ : Compiler), c.try_get_constant_opt slotArg = some k →
      0 ≤ k → k < 8 → eval_expr fuel c value = .ok c₁ →
      io_write (fuel + 1) c ⟨"write", [value, slotArg]⟩ =
        .ok (c₁.push_instr ⟨.SVA, some (k.toNat + 32)⟩)) := by
  refine ⟨fun h => ?_, fun k h hr => ?_, fun k c₁ h h0 h8 he => ?_⟩
  · simp [io_write, h]
  · simp [io_write, h, hr]
  · have hand : (0 : Int) ≤ k ∧ k < 8 := ⟨h0, h8⟩
    simp [io_write, h, he, hand]

/-- C6 witness: the amended theorem applied at a constant out-slot 3 and
value literal 1. -/
theorem c6_io_write_spec_witness :
    Compiler.new.try_get_constant_opt (.numericLiteral 3 default) = some 3 ∧
    eval_expr 2 Compiler.new (.numericLiteral 1 default) =
      .ok (Compiler.new.put_a_number 1) ∧
    io_write 3 Compiler.new
        ⟨"write", [.numericLiteral 1 default, .numericLiteral 3 default]⟩ =
      .ok ((Compiler.new.put_a_number 1).push_instr
        ⟨.SVA, some ((3 : Int).toNat + 32)⟩) :=
  ⟨rfl, rfl,
    (c6_io_write_spec 2 Compiler.new _ _).2.2 3 _ rfl (by decide) (by decide) rfl⟩

/-- Associativity of `InstrList.append`. -/
theorem InstrList.append_assoc :
    ∀ a b d : InstrList, (a.append b).append d = a.append (b.append d) :=
  @InstrList.rec (fun _ => True)
    (fun a => ∀ b d : InstrList, (a.append b).append d = a.append (b.append d))
    (fun _ => trivial)
    (fun _ _ => trivial)
    (fun _ _ => rfl)
    (fun head tail _ ih => by
      intro b d
      simp [InstrList.append, ih])

/-- Pushing is appending a singleton group. -/
theorem InstrList.push_push (l : InstrList) (x y : Instr) :
    (l.push x).push y = l.append (.cons x (.cons y .nil)) := by
  rw [InstrList.push, InstrList.push, InstrList.append_assoc]
  rfl

/-- Recomposition of an i16 from its little-endian bytes under the
symbolic `LAL`/`LAH` (and `LBL`/`LBH`) semantics. -/
theorem low_high_recompose (v : Int) (h1 : -32768 ≤ v) (h2 : v < 32768) :
    add16 (Int.ofNat (lowByte v)) (shl16 (Int.ofNat (highByte v)) 8) = v := by
  have e1 : shl16 (Int.ofNat (highByte v)) 8 =
      wrap16 (Int.ofNat (highByte v) * 256) := by
    simp [shl16, toU16]
  rw [e1]
  unfold add16 wrap16 lowByte highByte toU16
  simp only [Int.ofNat_eq_natCast]
  omega

/-- An i16 with zero high byte equals its low byte. -/
theorem low_eq_of_high_zero (v : Int) (h1 : -32768 ≤ v) (h2 : v < 32768)
    (h : highByte v = 0) : (Int.ofNat (lowByte v)) = v := by
  unfold highByte toU16 at h
  unfold lowByte toU16
  simp only [Int.ofNat_eq_natCast]
  omega

/-- C3: for every i16 value `v`, loading the literal `v` into register A
emits nothing when the scope's symbolic A-state is already `Number v`;
otherwise it emits `LAL low(v)` followed by `LAH high(v)` exactly when the
high byte is non-zero; in every case the symbolic A-state afterwards is
`Number v`. The same holds for register B. -/
theorem c3_put_number (c : Compiler) (v : Int) (h1 : -32768 ≤ v)
    (h2 : v < 32768) :
    ((c.last_scope.state.a = .Number v → c.put_a_number v = c) ∧
     (c.last_scope.state.a ≠ .Number v →
        (c.put_a_number v).last_scope.instructions =
          c.last_scope.instructions.append (InstrList.ofList
            (if highByte v ≠ 0 then
              [.Code ⟨.LAL, some (lowByte v)⟩, .Code ⟨.LAH, some (highByte v)⟩]
             else [.Code ⟨.LAL, some (lowByte v)⟩]))) ∧
     (c.put_a_number v).last_scope.state.a = .Number v) ∧
    ((c.last_scope.state.b = .Number v → c.put_b_number v = c) ∧
     (c.last_scope.state.b ≠ .Number v →
        (c.put_b_number v).last_scope.instructions =
          c.last_scope.instructions.append (InstrList.ofList
            (if highByte v ≠ 0 then
              [.Code ⟨.LBL, some (lowByte v)⟩, .Code ⟨.LBH, some (highByte v)⟩]
             else [.Code ⟨.LBL, some (lowByte v)⟩]))) ∧
     (c.put_b_number v).last_scope.state.b = .Number v) := by
  constructor
  · by_cases ha : c.last_scope.state.a = .Number v
    · have hbeq : (c.last_scope.state.a == RegisterContents.Number v) = true := by
        simp [ha]
      refine ⟨fun _ => by simp [Compiler.put_a_number, hbeq], fun hne => absurd ha hne,
        by simp [Compiler.put_a_number, hbeq, ha]⟩
    · have hbeq : (c.last_scope.state.a == RegisterContents.Number v) = false := by
        simp [ha]
      refine ⟨fun h => absurd h ha, fun _ => ?_, ?_⟩
      · by_cases hh : highByte v ≠ 0
        · rw [if_pos hh]
          simp only [Compiler.put_a_number, hbeq, Bool.false_eq_true, if_false,
            if_pos hh]
          exact InstrList.push_push _ _ _
        · rw [if_neg hh]
          simp only [Compiler.put_a_number, hbeq, Bool.false_eq_true, if_false,
            if_neg hh]
          rfl
      · by_cases hh : highByte v ≠ 0
        · simp only [Compiler.put_a_number, hbeq, Bool.false_eq_true, if_false,
            if_pos hh]
          show RegisterContents.Number
            (add16 (Int.ofNat (lowByte v)) (shl16 (Int.ofNat (highByte v)) 8)) =
            .Number v
          rw [low_high_recompose v h1 h2]
        · simp only [Compiler.put_a_number, hbeq, Bool.false_eq_true, if_false,
            if_neg hh]
          show RegisterContents.Number (Int.ofNat (lowByte v)) = .Number v
          rw [low_eq_of_high_zero v h1 h2 (by omega)]
  · by_cases hb : c.last_scope.state.b = .Number v
    · have hbeq : (c.last_scope.state.b == RegisterContents.Number v) = true := by
        simp [hb]
      refine ⟨fun _ => by simp [Compiler.put_b_number, hbeq], fun hne => absurd hb hne,
        by simp [Compiler.put_b_number, hbeq, hb]⟩
    · have hbeq : (c.last_scope.state.b == RegisterContents.Number v) = false := by
        simp [hb]
      refine ⟨fun h => absurd h hb, fun _ => ?_, ?_⟩
      · by_cases hh : highByte v ≠ 0
        · rw [if_pos hh]
          simp only [Compiler.put_b_number, hbeq, Bool.false_eq_true, if_false,
            if_pos hh]
          exact InstrList.push_push _ _ _
        · rw [if_neg hh]
          simp only [Compiler.put_b_number, hbeq, Bool.false_eq_true, if_false,
            if_neg hh]
          rfl
      · by_cases hh : highByte v ≠ 0
        · simp only [Compiler.put_b_number, hbeq, Bool.false_eq_true, if_false,
            if_pos hh]
          show RegisterContents.Number
            (add16 (Int.ofNat (lowByte v)) (shl16 (Int.ofNat (highByte v)) 8)) =
            .Number v
          rw [low_high_recompose v h1 h2]
        · simp only [Compiler.put_b_number, hbeq, Bool.false_eq_true, if_false,
            if_neg hh]
          show RegisterContents.Number (Int.ofNat (lowByte v)) = .Number v
          rw [low_eq_of_high_zero v h1 h2 (by omega)]

/-- C3 witness: the theorem applied at a fresh compiler and `v = -1`
(both bytes 255). -/
theorem c3_put_number_witness :
    (-32768 ≤ (-1 : Int) ∧ (-1 : Int) < 32768) ∧
    (Compiler.new.put_a_number (-1)).last_scope.state.a = .Number (-1) ∧
    (Compiler.new.put_b_number (-1)).last_scope.state.b = .Number (-1) :=
  ⟨⟨by decide, by decide⟩,
    ((c3_put_number Compiler.new (-1) (by decide) (by decide)).1).2.2,
    ((c3_put_number Compiler.new (-1) (by decide) (by decide)).2).2.2⟩

/-- Characterization of `list_position`: the found index holds the first
element satisfying the predicate. -/
theorem list_position_spec {α : Type} (p : α → Bool) :
    ∀ (l : List α) (idx : Nat), list_position p l = some idx →
      (∃ x, l[idx]? = some x ∧ p x = true) ∧
      ∀ j, j < idx → ∃ y, l[j]? = some y ∧ p y = false := by
  intro l
  induction l with
  | nil => intro idx h; simp [list_position] at h
  | cons x rest ih =>
    intro idx h
    by_cases hp : p x
    · simp [list_position, hp] at h
      subst h
      exact ⟨⟨x, by simp, hp⟩, fun j hj => absurd hj (Nat.not_lt_zero j)⟩
    · simp [list_position, hp] at h
      obtain ⟨idx', hidx', rfl⟩ := h
      obtain ⟨⟨y, hy, hpy⟩, hall⟩ := ih idx' hidx'
      refine ⟨⟨y, by simpa using hy, hpy⟩, fun j hj => ?_⟩
      cases j with
      | zero => exact ⟨x, by simp, by simpa using hp⟩
      | succ j' =>
        obtain ⟨y', hy', hpy'⟩ := hall j' (by omega)
        exact ⟨y', by simpa using hy', hpy'⟩

/-- C4: declaring or assigning a variable name reuses the slot of an
existing binding in any enclosing scope without touching the arena;
otherwise it claims the lowest-index free arena slot and binds it in the
innermost scope; when the arena is full the result is `TooManyVars` and
the arena is unchanged. -/
theorem c4_insert_var (c : Compiler) (symbol : String) (location : Range) :
    (∀ slot, c.get_var_noerror symbol = some slot →
        c.insert_var symbol location = .ok (slot, c)) ∧
    (c.get_var_noerror symbol = none →
      (∀ idx, list_position (fun s => !s) c.vars = some idx →
          c.insert_var symbol location =
            .ok (idx, { c with
              vars := c.vars.set idx true
              scopes := ({ c.scopes.1 with
                vars := alInsert c.scopes.1.vars symbol idx }, c.scopes.2) }) ∧
          c.vars[idx]? = some false ∧
          ∀ j, j < idx → c.vars[j]? = some true) ∧
      (list_position (fun s => !s) c.vars = none →
          c.insert_var symbol location = .error ⟨.TooManyVars, location⟩)) := by
  refine ⟨fun slot h => ?_, fun hnone => ⟨fun idx hidx => ⟨?_, ?_, ?_⟩, fun hfull => ?_⟩⟩
  · unfold Compiler.insert_var
    rw [show scanVars (c.scopes.1 :: c.scopes.2) symbol = some slot from h]
  · unfold Compiler.insert_var Compiler.get_next_available_slot
    rw [show scanVars (c.scopes.1 :: c.scopes.2) symbol = none from hnone, hidx]
    rfl
  · obtain ⟨⟨x, hx, hpx⟩, _⟩ := list_position_spec _ c.vars idx hidx
    rw [hx]
    simp at hpx
    rw [hpx]
  · intro j hj
    obtain ⟨_, hall⟩ := list_position_spec _ c.vars idx hidx
    obtain ⟨y, hy, hpy⟩ := hall j hj
    rw [hy]
    simp at hpy
    rw [hpy]
  · unfold Compiler.insert_var Compiler.get_next_available_slot
    rw [show scanVars (c.scopes.1 :: c.scopes.2) symbol = none from hnone, hfull]

/-- C4 witness: the theorem applied at a fresh compiler. -/
theorem c4_insert_var_witness :
    Compiler.new.get_var_noerror "x" = none ∧
    list_position (fun s => !s) Compiler.new.vars = some 0 ∧
    Compiler.new.insert_var "x" default =
      .ok (0, { Compiler.new with
        vars := Compiler.new.vars.set 0 true
        scopes := ({ Compiler.new.scopes.1 with
          vars := alInsert Compiler.new.scopes.1.vars "x" 0 },
          Compiler.new.scopes.2) }) :=
  ⟨rfl, rfl, (((c4_insert_var Compiler.new "x" default).2 rfl).1 0 rfl).1⟩

/-- Flattened length of a scope (the unwrapped count). -/
theorem scope_len_spec : ∀ s : InstrList, s.scope_len = s.flatten.length % 256 :=
  @InstrList.rec
    (fun i => Instr.scope_len_one i = (Instr.flatten_one i).length % 256)
    (fun s => InstrList.scope_len s = (InstrList.flatten s).length % 256)
    (fun _ => rfl)
    (fun _ ih => ih)
    rfl
    (fun head tail ih1 ih2 => by
      show (Instr.scope_len_one head + InstrList.scope_len tail) % 256 =
        (Instr.flatten_one head ++ InstrList.flatten tail).length % 256
      rw [List.length_append, ih1, ih2]
      omega)

/-- C10: `scope_len` accumulates the flattened instruction count in a
`u8`, so it returns the count modulo 256 and therefore differs from the
true position for every scope whose flattened prefix exceeds 255
instructions — mark recording is well-defined only below that bound. -/
theorem c10_scope_len (s : InstrList) :
    s.scope_len = s.flatten.length % 256 ∧
    (256 ≤ s.flatten.length → s.scope_len ≠ s.flatten.length) := by
  have h := scope_len_spec s
  exact ⟨h, fun hge => by omega⟩

set_option maxRecDepth 4000 in
/-- C10 witness: a flat scope of 256 instructions wraps to `scope_len 0`. -/
theorem c10_scope_len_witness :
    256 ≤ (InstrList.ofList (List.replicate 256 (Instr.Code ⟨.NON, none⟩))).flatten.length ∧
    (InstrList.ofList (List.replicate 256 (Instr.Code ⟨.NON, none⟩))).scope_len ≠
      (InstrList.ofList (List.replicate 256 (Instr.Code ⟨.NON, none⟩))).flatten.length :=
  ⟨by decide, (c10_scope_len _).2 (by decide)⟩

/-- C8: the inline evaluator agrees with the specification-side wrapping
i16 arithmetic on every expression built from numeric literals, bound
inline identifiers and the six binary operators; any other expression form
fails with `ForbiddenInline` at the expression's range; an identifier not
bound as an inline variable fails with `NonexistentInlineVar`. -/
theorem c8_inline_evaluator :
    (∀ (c : Compiler) (e : Expression), InlineOk (inline_env c) e →
      ∃ v, spec_inline_value (inline_env c) e = some v ∧
        c.eval_after_inline e = .ok v) ∧
    (∀ (c : Compiler) (e : Expression), is_inline_form e = false →
      c.eval_after_inline e = .error ⟨.ForbiddenInline, e.location⟩) ∧
    (∀ (c : Compiler) (n : String) (loc : Range), inline_env c n = none →
      c.eval_after_inline (.identifier n loc) =
        .error ⟨.NonexistentInlineVar n, loc⟩) := by
  refine ⟨fun c e h => ?_, fun c e h => ?_, fun c n loc h => ?_⟩
  · induction h with
    | lit v loc => exact ⟨v, rfl, rfl⟩
    | ident n v loc hv =>
      refine ⟨v, by simp [spec_inline_value, hv], ?_⟩
      simp only [Compiler.eval_after_inline, Compiler.get_inline_var]
      rw [show scanInline (c.scopes.1 :: c.scopes.2) n = some v from hv]
    | binop l r op loc hl hr ihl ihr =>
      obtain ⟨a, hsa, hea⟩ := ihl
      obtain ⟨b, hsb, heb⟩ := ihr
      refine ⟨(match op with
        | .Plus => add16 a b
        | .Minus => sub16 a b
        | .Mult => mul16 a b
        | .And => and16 a b
        | .Or => or16 a b
        | .Xor => xor16 a b), ?_, ?_⟩
      · simp [spec_inline_value, hsa, hsb]
      · simp only [Compiler.eval_after_inline, hea, heb]
        rfl
  · cases e <;> simp_all [is_inline_form] <;>
      simp [Compiler.eval_after_inline, Expression.location]
  · simp only [Compiler.eval_after_inline, Compiler.get_inline_var]
    rw [show scanInline (c.scopes.1 :: c.scopes.2) n = none from h]

/-- C8 witness: the agreement applied at `32000 + 32000` (which wraps). -/
theorem c8_inline_evaluator_witness :
    ∃ v, spec_inline_value (inline_env Compiler.new)
        (.binaryExpr (.numericLiteral 32000 default)
          (.numericLiteral 32000 default) .Plus default) = some v ∧
      Compiler.new.eval_after_inline
        (.binaryExpr (.numericLiteral 32000 default)
          (.numericLiteral 32000 default) .Plus default) = .ok v :=
  c8_inline_evaluator.1 Compiler.new _
    (.binop _ _ _ _ (.lit _ _) (.lit _ _))

set_option maxRecDepth 8000 in
/-- C2 (counterexample): a forward near jump at index 0 targeting index 127
is converted to a far jump with `LCL 1` inserted before it; the insertion
itself shifts the mark to 128, whose page is 2, so the selector that
precedes the (now cross-page) far jump carries the stale page 1, not
`target / 64 = 2` as the claim requires. -/
theorem c2_page_safety_counterexample :
    (link_program (⟨.JMP, some 0⟩ :: List.replicate 127 ⟨.NON, none⟩)
        [(0, 127)])[1]? = some ⟨.JMD, some 128⟩ ∧
    (link_program (⟨.JMP, some 0⟩ :: List.replicate 127 ⟨.NON, none⟩)
        [(0, 127)])[0]? = some ⟨.LCL, some 1⟩ ∧
    (1 : Nat) / 64 ≠ (128 : Nat) / 64 ∧
    (some 1 : Option Nat) ≠ some (128 / 64) :=
  ⟨rfl, rfl, by decide, by decide⟩

/-- Once a pass has recorded a change, the flag stays set. -/
theorem idj_go_changed (fuel : Nat) :
    ∀ (v : List Instruction) (m : List (Nat × Nat)) (i : Nat),
      (idj_go fuel v m i true).2.2 = true := by
  induction fuel with
  | zero => intro v m i; rfl
  | succ fuel ih =>
    intro v m i
    cases hv : v[i]? with
    | none => simp only [idj_go, hv]
    | some instr =>
      simp only [idj_go, hv]
      by_cases hj : (instr.variant.is_jump && !instr.variant.disc_jump) = true
      · rw [if_pos hj]
        by_cases hp : i / 64 ≠ ((alGet m (instr.arg.getD 0)).getD 0) / 64
        · rw [if_pos hp]
          exact ih _ _ _
        · rw [if_neg hp]
          exact ih _ _ _
      · rw [if_neg hj]
        exact ih _ _ _

/-- A pass that records no change leaves the program and marks untouched,
and every near jump it scanned has its target on its own page. -/
theorem idj_go_fix (fuel : Nat) :
    ∀ (v : List Instruction) (m : List (Nat × Nat)) (i : Nat),
      v.length ≤ fuel + i →
      (idj_go fuel v m i false).2.2 = false →
      (idj_go fuel v m i false).1 = v ∧ (idj_go fuel v m i false).2.1 = m ∧
      ∀ j, i ≤ j → ∀ (hj : j < v.length),
        ((v[j]).variant.is_jump && !(v[j]).variant.disc_jump) = true →
        j / 64 = ((alGet m ((v[j]).arg.getD 0)).getD 0) / 64 := by
  induction fuel with
  | zero =>
    intro v m i hlen _
    exact ⟨rfl, rfl, fun j hij hj _ => by omega⟩
  | succ fuel ih =>
    intro v m i hlen h
    cases hv : v[i]? with
    | none =>
      have hi : v.length ≤ i := by
        by_contra hc
        push_neg at hc
        rw [List.getElem?_eq_getElem hc] at hv
        cases hv
      simp only [idj_go, hv] at h ⊢
      exact ⟨by trivial, by trivial, fun j hij hj _ => by omega⟩
    | some instr =>
      have hilen : i < v.length := by
        by_contra hc
        push_neg at hc
        rw [List.getElem?_eq_none hc] at hv
        cases hv
      have hinstr : v[i] = instr := by
        have h2 := List.getElem?_eq_getElem hilen
        rw [hv] at h2
        exact (Option.some_inj.mp h2).symm
      simp only [idj_go, hv] at h ⊢
      by_cases hj : (instr.variant.is_jump && !instr.variant.disc_jump) = true
      · rw [if_pos hj] at h ⊢
        by_cases hp : i / 64 ≠ ((alGet m (instr.arg.getD 0)).getD 0) / 64
        · rw [if_pos hp] at h
          rw [idj_go_changed] at h
          cases h
        · rw [if_neg hp] at h ⊢
          obtain ⟨h1, h2, h3⟩ := ih v m (i + 1) (by omega) h
          push_neg at hp
          refine ⟨h1, h2, fun j hij hjlen hnear => ?_⟩
          rcases Nat.eq_or_lt_of_le hij with heq | hlt
          · subst heq
            rw [hinstr]
            exact hp
          · exact h3 j hlt hjlen hnear
      · rw [if_neg hj] at h ⊢
        obtain ⟨h1, h2, h3⟩ := ih v m (i + 1) (by omega) h
        refine ⟨h1, h2, fun j hij hjlen hnear => ?_⟩
        rcases Nat.eq_or_lt_of_le hij with heq | hlt
        · subst heq
          rw [hinstr] at hnear
          exact absurd hnear hj
        · exact h3 j hlt hjlen hnear

/-- Conversion of a near jump produces an instruction that is no longer a
near jump. -/
theorem to_disc_not_near (var : InstructionVariant)
    (h : (var.is_jump && !var.disc_jump) = true) :
    (var.to_disc_jump.is_jump && !var.to_disc_jump.disc_jump) = false := by
  revert h
  cases var <;> decide

/-- One conversion step removes exactly one near jump. -/
theorem near_count_surgery (v : List Instruction) (i : Nat) (instr : Instruction)
    (hv : v[i]? = some instr)
    (hnear : (instr.variant.is_jump && !instr.variant.disc_jump) = true) (p : Nat) :
    near_count (v.take i ++ [⟨.LCL, some p⟩, ⟨instr.variant.to_disc_jump, instr.arg⟩] ++
        v.drop (i + 1)) + 1 = near_count v := by
  have hilen : i < v.length := by
    by_contra hc
    push_neg at hc
    rw [List.getElem?_eq_none hc] at hv
    cases hv
  have hinstr : v[i] = instr := by
    have h2 := List.getElem?_eq_getElem hilen
    rw [hv] at h2
    exact (Option.some_inj.mp h2).symm
  have hsplit : v = v.take i ++ v[i] :: v.drop (i + 1) := by
    conv_lhs => rw [← List.take_append_drop i v]
    rw [List.drop_eq_getElem_cons hilen]
  conv_rhs => rw [hsplit]
  unfold near_count
  have hdiscified := to_disc_not_near instr.variant hnear
  have hlcl : (((⟨.LCL, some p⟩ : Instruction)).variant.is_jump &&
      !((⟨.LCL, some p⟩ : Instruction)).variant.disc_jump) = false := rfl
  simp [List.countP_append, List.countP_cons, hinstr, hnear, hdiscified, hlcl]
  omega

/-- Near-jump count never grows during a pass, and strictly drops when a
pass starting with a clear flag reports a change. -/
theorem idj_go_near_count (fuel : Nat) :
    ∀ (v : List Instruction) (m : List (Nat × Nat)) (i : Nat) (c : Bool),
      near_count (idj_go fuel v m i c).1 ≤ near_count v ∧
      (c = false → (idj_go fuel v m i c).2.2 = true →
        near_count (idj_go fuel v m i c).1 < near_count v) := by
  induction fuel with
  | zero =>
    intro v m i c
    refine ⟨le_refl _, fun hc h => ?_⟩
    rw [hc] at h
    cases h
  | succ fuel ih =>
    intro v m i c
    cases hv : v[i]? with
    | none =>
      simp only [idj_go, hv]
      refine ⟨le_refl _, fun hc h => ?_⟩
      rw [hc] at h
      cases h
    | some instr =>
      simp only [idj_go, hv]
      by_cases hj : (instr.variant.is_jump && !instr.variant.disc_jump) = true
      · rw [if_pos hj]
        by_cases hp : i / 64 ≠ ((alGet m (instr.arg.getD 0)).getD 0) / 64
        · rw [if_pos hp]
          have hsur := near_count_surgery v i instr hv hj
            (((alGet m (instr.arg.getD 0)).getD 0) / 64)
          have hle := (ih (v.take i ++
              [⟨.LCL, some (((alGet m (instr.arg.getD 0)).getD 0) / 64)⟩,
                ⟨instr.variant.to_disc_jump, instr.arg⟩] ++ v.drop (i + 1))
              (move_jump_marks m (i % 256) 1) (i + 2) true).1
          exact ⟨by omega, fun _ _ => by omega⟩
        · rw [if_neg hp]
          exact ih v m (i + 1) c
      · rw [if_neg hj]
        exact ih v m (i + 1) c

/-- Unfolding of one pass. -/
theorem idj_pass_eq (v : List Instruction) (m : List (Nat × Nat)) :
    idj_pass v m = idj_go (v.length + 1) v m 0 false := rfl

/-- With more passes than near jumps, the loop reaches a fix-point: one
more pass over its result reports no change. -/
theorem idj_loop_fix (k : Nat) :
    ∀ (v : List Instruction) (m : List (Nat × Nat)), near_count v < k →
      idj_pass (idj_loop k v m).1 (idj_loop k v m).2 =
        ((idj_loop k v m).1, (idj_loop k v m).2, false) := by
  induction k with
  | zero => intro v m h; omega
  | succ k ih =>
    intro v m h
    simp only [idj_loop]
    cases hch : (idj_pass v m).2.2 with
    | false =>
      simp only [hch, Bool.false_eq_true, if_false]
      obtain ⟨h1, h2, _⟩ := idj_go_fix (v.length + 1) v m 0 (by omega) hch
      have h1' : (idj_pass v m).1 = v := h1
      have h2' : (idj_pass v m).2.1 = m := h2
      rw [h1', h2']
      have heta : idj_pass v m =
          ((idj_pass v m).1, (idj_pass v m).2.1, (idj_pass v m).2.2) := rfl
      rw [heta, h1', h2', hch]
    | true =>
      simp only [hch, if_true]
      apply ih
      have hlt := (idj_go_near_count (v.length + 1) v m 0 false).2 rfl hch
      have : near_count (idj_pass v m).1 < near_count v := hlt
      omega

/-- Index view of the conversion surgery. -/
theorem surgery_get (v : List Instruction) (i : Nat) (a b : Instruction)
    (hi : i < v.length) (j : Nat) :
    (v.take i ++ [a, b] ++ v.drop (i + 1))[j]? =
      if j < i then v[j]?
      else if j = i then some a
      else if j = i + 1 then some b
      else v[j - 1]? := by
  have hlt : (v.take i).length = i := by
    simp [List.length_take]
    omega
  have hlen2 : (v.take i ++ [a, b]).length = i + 2 := by
    simp [hlt]
  by_cases h1 : j < i
  · rw [if_pos h1,
      List.getElem?_append_left (by omega : j < (v.take i ++ [a, b]).length),
      List.getElem?_append_left (by omega : j < (v.take i).length),
      List.getElem?_take, if_pos h1]
  · by_cases h2 : j = i
    · rw [if_neg h1, if_pos h2,
        List.getElem?_append_left (by omega : j < (v.take i ++ [a, b]).length),
        List.getElem?_append_right (by omega : (v.take i).length ≤ j), hlt, h2]
      simp
    · by_cases h3 : j = i + 1
      · rw [if_neg h1, if_neg h2, if_pos h3,
          List.getElem?_append_left (by omega : j < (v.take i ++ [a, b]).length),
          List.getElem?_append_right (by omega : (v.take i).length ≤ j), hlt, h3]
        simp
      · rw [if_neg h1, if_neg h2, if_neg h3,
          List.getElem?_append_right (by omega : (v.take i ++ [a, b]).length ≤ j),
          hlen2, List.getElem?_drop]
        congr 1
        omega

/-- The conversion surgery preserves page-selector adjacency. -/
theorem surgery_adjacent (v : List Instruction) (i : Nat) (instr : Instruction)
    (hv : v[i]? = some instr) (hjump : instr.variant.is_jump = true) (p : Nat)
    (h : lcl_adjacent v) :
    lcl_adjacent (v.take i ++
      [⟨.LCL, some p⟩, ⟨instr.variant.to_disc_jump, instr.arg⟩] ++
      v.drop (i + 1)) := by
  have hilen : i < v.length := by
    by_contra hc
    push_neg at hc
    rw [List.getElem?_eq_none hc] at hv
    cases hv
  intro j inst hget hdiscj
  rw [surgery_get v i _ _ hilen j] at hget
  by_cases h1 : j < i
  · rw [if_pos h1] at hget
    obtain ⟨hj0, q, hq⟩ := h j inst hget hdiscj
    refine ⟨hj0, q, ?_⟩
    rw [surgery_get v i _ _ hilen (j - 1), if_pos (by omega)]
    exact hq
  · by_cases h2 : j = i
    · subst h2
      rw [if_neg h1, if_pos rfl] at hget
      cases hget
      simp [InstructionVariant.disc_jump] at hdiscj
    · by_cases h3 : j = i + 1
      · subst h3
        rw [if_neg h1, if_neg h2, if_pos rfl] at hget
        cases hget
        refine ⟨by omega, p, ?_⟩
        rw [surgery_get v i _ _ hilen (i + 1 - 1)]
        simp
      · rw [if_neg h1, if_neg h2, if_neg h3] at hget
        obtain ⟨hj0, q, hq⟩ := h (j - 1) inst hget hdiscj
        by_cases h4 : j = i + 2
        · subst h4
          have hvq : v[i]? = some ⟨.LCL, some q⟩ := by
            simpa using hq
          rw [hv] at hvq
          cases hvq
          simp [InstructionVariant.is_jump, InstructionVariant.jump] at hjump
        · refine ⟨by omega, q, ?_⟩
          rw [surgery_get v i _ _ hilen (j - 1),
            if_neg (by omega : ¬(j - 1 < i)), if_neg (by omega : ¬(j - 1 = i)),
            if_neg (by omega : ¬(j - 1 = i + 1))]
          exact hq

/-- Every scanning pass preserves page-selector adjacency. -/
theorem idj_go_adjacent (fuel : Nat) :
    ∀ (v : List Instruction) (m : List (Nat × Nat)) (i : Nat) (c : Bool),
      lcl_adjacent v → lcl_adjacent (idj_go fuel v m i c).1 := by
  induction fuel with
  | zero => intro v m i c h; exact h
  | succ fuel ih =>
    intro v m i c h
    cases hv : v[i]? with
    | none => simpa only [idj_go, hv] using h
    | some instr =>
      simp only [idj_go, hv]
      by_cases hj : (instr.variant.is_jump && !instr.variant.disc_jump) = true
      · rw [if_pos hj]
        by_cases hp : i / 64 ≠ ((alGet m (instr.arg.getD 0)).getD 0) / 64
        · rw [if_pos hp]
          have hj' := hj
          simp only [Bool.and_eq_true, Bool.not_eq_true'] at hj'
          exact ih _ _ _ _ (surgery_adjacent v i instr hv hj'.1 _ h)
        · rw [if_neg hp]
          exact ih _ _ _ _ h
      · rw [if_neg hj]
        exact ih _ _ _ _ h

/-- The fix-point loop preserves page-selector adjacency. -/
theorem idj_loop_adjacent (k : Nat) :
    ∀ (v : List Instruction) (m : List (Nat × Nat)),
      lcl_adjacent v → lcl_adjacent (idj_loop k v m).1 := by
  induction k with
  | zero => intro v m h; exact h
  | succ k ih =>
    intro v m h
    simp only [idj_loop]
    cases hch : (idj_pass v m).2.2 with
    | false =>
      simp only [hch, Bool.false_eq_true, if_false]
      exact idj_go_adjacent (v.length + 1) v m 0 false h
    | true =>
      simp only [hch, if_true]
      exact ih _ _ (idj_go_adjacent (v.length + 1) v m 0 false h)

/-- Index view of mark resolution. -/
theorem replace_get (v : List Instruction) (m : List (Nat × Nat)) (j : Nat) :
    (replace_jump_marks v m)[j]? = (v[j]?).map (fun i =>
      if i.variant.is_jump then
        ({ i with arg := some ((alGet m (i.arg.getD 0)).getD 0) } : Instruction)
      else i) := by
  unfold replace_jump_marks
  exact List.getElem?_map _ v j

/-- Mark resolution preserves page-selector adjacency. -/
theorem replace_adjacent (v : List Instruction) (m : List (Nat × Nat))
    (h : lcl_adjacent v) : lcl_adjacent (replace_jump_marks v m) := by
  intro j inst hget hdisc
  rw [replace_get] at hget
  cases hx : v[j]? with
  | none => rw [hx] at hget; cases hget
  | some x =>
    rw [hx] at hget
    simp only [Option.map_some'] at hget
    cases hget
    have hdisc' : x.variant.disc_jump = true := by
      by_cases hxj : x.variant.is_jump <;> simp [hxj] at hdisc <;> exact hdisc
    obtain ⟨hj0, q, hq⟩ := h j x hx hdisc'
    refine ⟨hj0, q, ?_⟩
    rw [replace_get, hq]
    simp [InstructionVariant.is_jump, InstructionVariant.jump]

/-- C2 (amended): after the fix-point linking pass, every jump whose
resolved target lies on a different 64-instruction page than the jump
itself is a far (disc) jump and is immediately preceded by an `LCL`
page-selector instruction — whose argument is the page computed when the
selector was inserted, which (see the counterexample) can differ from the
final `target / 64` when later mark shifts moved the target across a page
boundary. Stated for inputs without far jumps, which is every flattened
compiler output. -/
theorem c2_page_safety (v : List Instruction) (marks : List (Nat × Nat))
    (hdisc : ∀ inst ∈ v, inst.variant.disc_jump = false) :
    ∀ j inst, (link_program v marks)[j]? = some inst →
      inst.variant.is_jump = true →
      j / 64 ≠ (inst.arg.getD 0) / 64 →
      inst.variant.disc_jump = true ∧ j ≠ 0 ∧
        ∃ p, (link_program v marks)[j - 1]? = some ⟨.LCL, some p⟩ := by
  intro j inst hget hjump hcross
  have hadj0 : lcl_adjacent v := by
    intro j' inst' hj' hd'
    rw [hdisc inst' (List.getElem?_mem hj')] at hd'
    cases hd'
  have hadjw : lcl_adjacent (insert_disc_jumps v marks).1 :=
    idj_loop_adjacent _ v marks hadj0
  have hadjout : lcl_adjacent (replace_jump_marks (insert_disc_jumps v marks).1
      (insert_disc_jumps v marks).2) :=
    replace_adjacent _ _ hadjw
  have hfix := idj_loop_fix (near_count v + 1) v marks (by omega)
  have hch : (idj_go ((insert_disc_jumps v marks).1.length + 1)
      (insert_disc_jumps v marks).1 (insert_disc_jumps v marks).2 0 false).2.2 =
      false := by
    have h2 := congrArg (fun r => r.2.2) hfix
    simpa [idj_pass_eq] using h2
  obtain ⟨_, _, hscan⟩ := idj_go_fix ((insert_disc_jumps v marks).1.length + 1)
    (insert_disc_jumps v marks).1 (insert_disc_jumps v marks).2 0 (by omega) hch
  have hlink : link_program v marks = replace_jump_marks
      (insert_disc_jumps v marks).1 (insert_disc_jumps v marks).2 := rfl
  rw [hlink, replace_get] at hget
  cases hx : (insert_disc_jumps v marks).1[j]? with
  | none =>
    rw [hx] at hget
    cases hget
  | some x =>
    rw [hx] at hget
    simp only [Option.map_some'] at hget
    have hfx : (if x.variant.is_jump = true then
        ({ x with arg := some ((alGet (insert_disc_jumps v marks).2
          (x.arg.getD 0)).getD 0) } : Instruction)
      else x) = inst := Option.some_inj.mp hget
    have hjlen : j < (insert_disc_jumps v marks).1.length := by
      by_contra hc
      push_neg at hc
      rw [List.getElem?_eq_none hc] at hx
      cases hx
    have hxj : (insert_disc_jumps v marks).1[j] = x := by
      have h2 := List.getElem?_eq_getElem hjlen
      rw [hx] at h2
      exact (Option.some_inj.mp h2).symm
    have hvar : inst.variant = x.variant := by
      rw [← hfx]
      by_cases hxj2 : x.variant.is_jump <;> simp [hxj2]
    by_cases hxd : x.variant.disc_jump = true
    · have hdisc_inst : inst.variant.disc_jump = true := by
        rw [hvar]
        exact hxd
      have hout : (replace_jump_marks (insert_disc_jumps v marks).1
          (insert_disc_jumps v marks).2)[j]? = some inst := by
        rw [replace_get, hx]
        simp [hget]
      obtain ⟨hj0, q, hq⟩ := hadjout j inst hout hdisc_inst
      refine ⟨hdisc_inst, hj0, q, ?_⟩
      rw [hlink]
      exact hq
    · have hxjump : x.variant.is_jump = true := by
        rw [hvar] at hjump
        exact hjump
      have hnear : ((insert_disc_jumps v marks).1[j].variant.is_jump &&
          !(insert_disc_jumps v marks).1[j].variant.disc_jump) = true := by
        rw [hxj]
        simp [hxjump, hxd]
      have hpage := hscan j (by omega) hjlen hnear
      rw [hxj] at hpage
      have harg : inst.arg.getD 0 =
          (alGet (insert_disc_jumps v marks).2 (x.arg.getD 0)).getD 0 := by
        rw [← hfx]
        simp [hxjump]
      rw [harg] at hcross
      exact absurd hpage hcross

/-- C2 witness: the amended theorem applied to a one-jump program whose
target 70 lies on page 1. -/
theorem c2_page_safety_witness :
    (∀ inst ∈ [(⟨.JMP, some 0⟩ : Instruction)], inst.variant.disc_jump = false) ∧
    (∀ j inst,
      (link_program [(⟨.JMP, some 0⟩ : Instruction)] [(0, 70)])[j]? = some inst →
      inst.variant.is_jump = true →
      j / 64 ≠ (inst.arg.getD 0) / 64 →
      inst.variant.disc_jump = true ∧ j ≠ 0 ∧
        ∃ p, (link_program [(⟨.JMP, some 0⟩ : Instruction)]
          [(0, 70)])[j - 1]? = some ⟨.LCL, some p⟩) :=
  ⟨by decide, c2_page_safety _ _ (by decide)⟩
